import Mathlib

/-!
Verification of the Native Messaging Host Protocol Engine of
`reverse-api-engineer` (`src/reverse_api/native_host.py`).

The development shallowly embeds the protocol core: JSON values as produced
by `json.loads` (`JVal`, with Python `None` as `JVal.null`), the model of
`json.dumps` / `json.loads` used by the codec, the length-prefixed framing
functions `read_message` / `send_message`, the handler class
`NativeHostHandler` (state = `current_run_id`), and the dispatch loop
`run_host`.  External collaborators (file system, generation engine, chat
engine, config) are parameters gathered in the `Ext` structure.
-/

set_option maxHeartbeats 1000000
set_option maxRecDepth 16384

namespace NativeHost

/-- JSON values, as returned by `json.loads`.  Python `None` (JSON `null`)
is `JVal.null`; numbers are modelled as integers (the protocol payloads of
this host use integral numbers; floats are out of scope of the embedding);
a Python `dict` is an association list in insertion order, whose keys are
distinct for every value actually produced by `json.loads`. -/
inductive JVal where
  | null : JVal
  | bool (b : Bool) : JVal
  | int (n : Int) : JVal
  | str (s : List Char) : JVal
  | arr (elems : List JVal) : JVal
  | obj (members : List (List Char × JVal)) : JVal
deriving Repr

mutual

/-- Structural equality test on `JVal`. -/
def JVal.beq : JVal → JVal → Bool
  | .null, .null => true
  | .bool a, .bool b => a == b
  | .int a, .int b => a == b
  | .str a, .str b => a == b
  | .arr a, .arr b => JVal.beqList a b
  | .obj a, .obj b => JVal.beqMembers a b
  | _, _ => false

/-- Equality test on lists of `JVal`. -/
def JVal.beqList : List JVal → List JVal → Bool
  | [], [] => true
  | a :: as, b :: bs => JVal.beq a b && JVal.beqList as bs
  | _, _ => false

/-- Equality test on member lists of `JVal` objects. -/
def JVal.beqMembers : List (List Char × JVal) → List (List Char × JVal) → Bool
  | [], [] => true
  | (k, v) :: as, (k2, v2) :: bs => k == k2 && JVal.beq v v2 && JVal.beqMembers as bs
  | _, _ => false

end

/-- Induction principle for `JVal` giving hypotheses for the elements of
nested lists. -/
theorem JVal.ind (P : JVal → Prop) (hnull : P .null) (hbool : ∀ b, P (.bool b))
    (hint : ∀ n, P (.int n)) (hstr : ∀ s, P (.str s))
    (harr : ∀ l, (∀ v ∈ l, P v) → P (.arr l))
    (hobj : ∀ l, (∀ kv ∈ l, P kv.2) → P (.obj l)) : ∀ v, P v
  | .null => hnull
  | .bool b => hbool b
  | .int n => hint n
  | .str s => hstr s
  | .arr l => harr l (fun v hv =>
      have : sizeOf v < 1 + sizeOf l := by
        have := List.sizeOf_lt_of_mem hv
        omega
      JVal.ind P hnull hbool hint hstr harr hobj v)
  | .obj l => hobj l (fun kv hkv =>
      have : sizeOf kv.2 < 1 + sizeOf l := by
        have h1 := List.sizeOf_lt_of_mem hkv
        have h2 : sizeOf kv.2 < sizeOf kv := by
          obtain ⟨a, b⟩ := kv
          simp only [Prod.mk.sizeOf_spec]; omega
        omega
      JVal.ind P hnull hbool hint hstr harr hobj kv.2)
termination_by v => sizeOf v

theorem JVal.beqList_iff (l : List JVal)
    (ih : ∀ v ∈ l, ∀ b, JVal.beq v b = true ↔ v = b) :
    ∀ l2, JVal.beqList l l2 = true ↔ l = l2 := by
  induction l with
  | nil => intro l2; cases l2 <;> simp [JVal.beqList]
  | cons x xs ihl =>
    intro l2
    cases l2 with
    | nil => simp [JVal.beqList]
    | cons y ys =>
      simp only [JVal.beqList, Bool.and_eq_true, List.cons.injEq]
      rw [ih x (by simp) y, ihl (fun v hv b => ih v (by simp [hv]) b) ys]

theorem JVal.beqMembers_iff (l : List (List Char × JVal))
    (ih : ∀ kv ∈ l, ∀ b, JVal.beq kv.2 b = true ↔ kv.2 = b) :
    ∀ l2, JVal.beqMembers l l2 = true ↔ l = l2 := by
  induction l with
  | nil => intro l2; cases l2 <;> simp [JVal.beqMembers]
  | cons x xs ihl =>
    intro l2
    cases l2 with
    | nil => obtain ⟨k, v⟩ := x; simp [JVal.beqMembers]
    | cons y ys =>
      obtain ⟨k, v⟩ := x; obtain ⟨k2, v2⟩ := y
      simp only [JVal.beqMembers, Bool.and_eq_true, List.cons.injEq, Prod.mk.injEq]
      rw [ih (k, v) (by simp) v2, ihl (fun kv hkv b => ih kv (by simp [hkv]) b) ys]
      constructor
      · rintro ⟨⟨hk, hv⟩, hys⟩
        exact ⟨⟨by simpa using hk, hv⟩, hys⟩
      · rintro ⟨⟨hk, hv⟩, hys⟩
        exact ⟨⟨by simp [hk], hv⟩, hys⟩

theorem JVal.beq_iff : ∀ a b : JVal, JVal.beq a b = true ↔ a = b := by
  intro a
  induction a using JVal.ind with
  | hnull => intro b; cases b <;> simp [JVal.beq]
  | hbool x => intro b; cases b <;> simp [JVal.beq]
  | hint x => intro b; cases b <;> simp [JVal.beq]
  | hstr x => intro b; cases b <;> simp [JVal.beq]
  | harr l ih =>
    intro b
    cases b with
    | arr l2 =>
      simp only [JVal.beq, JVal.arr.injEq]
      exact JVal.beqList_iff l ih l2
    | null => simp [JVal.beq]
    | bool y => simp [JVal.beq]
    | int y => simp [JVal.beq]
    | str y => simp [JVal.beq]
    | obj y => simp [JVal.beq]
  | hobj l ih =>
    intro b
    cases b with
    | obj l2 =>
      simp only [JVal.beq, JVal.obj.injEq]
      exact JVal.beqMembers_iff l ih l2
    | null => simp [JVal.beq]
    | bool y => simp [JVal.beq]
    | int y => simp [JVal.beq]
    | str y => simp [JVal.beq]
    | arr y => simp [JVal.beq]

instance : DecidableEq JVal := fun a b =>
  decidable_of_iff (JVal.beq a b = true) (JVal.beq_iff a b)

/-- Python truthiness of a JSON value (`None`, `False`, `0`, `""`, `[]`,
`{}` are falsy). -/
def truthy : JVal → Bool
  | .null => false
  | .bool b => b
  | .int n => n != 0
  | .str s => s != []
  | .arr l => l != []
  | .obj l => l != []

/-- `d.get(k)`: first value bound to `k`, or Python `None` when absent. -/
def jget (m : List (List Char × JVal)) (k : String) : JVal :=
  (List.lookup k.data m).getD .null

/-- `d.get(k, default)`. -/
def jgetD (m : List (List Char × JVal)) (k : String) (d : JVal) : JVal :=
  (List.lookup k.data m).getD d

/-! ### Model of `json.dumps` (default separators `", "` / `": "`,
`ensure_ascii=True`) -/

/-- Decimal digit character. -/
def digitChar (d : Nat) : Char := Char.ofNat (48 + d)

/-- Lowercase hexadecimal digit character (as emitted by `json.dumps`). -/
def hexChar (d : Nat) : Char :=
  if d < 10 then Char.ofNat (48 + d) else Char.ofNat (87 + d)

/-- Decimal digits of `n`, least significant first (`fuel`-driven; `fuel = n`
always suffices). -/
def natDigitsRevF : Nat → Nat → List Nat
  | 0, _ => []
  | fuel + 1, n => if n = 0 then [] else n % 10 :: natDigitsRevF fuel (n / 10)

/-- Decimal rendering of a natural number, as Python `str`/`json.dumps`. -/
def natChars (n : Nat) : List Char :=
  if n = 0 then ['0'] else ((natDigitsRevF n n).reverse.map digitChar)

/-- Decimal rendering of a Python integer. -/
def intChars (n : Int) : List Char :=
  if n < 0 then '-' :: natChars n.natAbs else natChars n.natAbs

/-- A `\uXXXX` escape (4 lowercase hex digits), for `n < 0x10000`. -/
def uEsc4 (n : Nat) : List Char :=
  ['\\', 'u', hexChar (n / 4096 % 16), hexChar (n / 256 % 16),
   hexChar (n / 16 % 16), hexChar (n % 16)]

/-- Escaping of one string character by `json.dumps` (`ensure_ascii=True`):
`\"`, `\\`, the short control escapes, `\u00XX` for other control
characters, printable ASCII verbatim, `\uXXXX` for other characters in the
basic multilingual plane, and a surrogate pair beyond it. -/
def escChar (c : Char) : List Char :=
  if c = '"' then ['\\', '"']
  else if c = '\\' then ['\\', '\\']
  else if c.toNat = 8 then ['\\', 'b']
  else if c.toNat = 9 then ['\\', 't']
  else if c.toNat = 10 then ['\\', 'n']
  else if c.toNat = 12 then ['\\', 'f']
  else if c.toNat = 13 then ['\\', 'r']
  else if c.toNat < 0x20 then uEsc4 c.toNat
  else if c.toNat < 0x7f then [c]
  else if c.toNat < 0x10000 then uEsc4 c.toNat
  else uEsc4 (0xD800 + (c.toNat - 0x10000) / 0x400) ++
       uEsc4 (0xDC00 + (c.toNat - 0x10000) % 0x400)

/-- JSON string literal for `s`. -/
def serStr (s : List Char) : List Char :=
  '"' :: (s.flatMap escChar) ++ ['"']

mutual

/-- Model of `json.dumps` at the character level (default separators). -/
def serJVal : JVal → List Char
  | .null => "null".data
  | .bool b => if b then "true".data else "false".data
  | .int n => intChars n
  | .str s => serStr s
  | .arr [] => "[]".data
  | .arr (v :: tl) => '[' :: (serJVal v ++ serListTail tl) ++ [']']
  | .obj [] => "\x7b\x7d".data
  | .obj ((k, v) :: tl) =>
      '\x7b' :: (serStr k ++ ':' :: ' ' :: serJVal v ++ serMembersTail tl) ++ ['\x7d']

/-- Remaining array elements, each preceded by `", "`. -/
def serListTail : List JVal → List Char
  | [] => []
  | v :: tl => ',' :: ' ' :: (serJVal v ++ serListTail tl)

/-- Remaining object members, each preceded by `", "`. -/
def serMembersTail : List (List Char × JVal) → List Char
  | [] => []
  | (k, v) :: tl => ',' :: ' ' :: (serStr k ++ ':' :: ' ' :: serJVal v ++ serMembersTail tl)

end

/-- Characters representable by `json.dumps` without a surrogate pair. -/
def strOk (s : List Char) : Bool := s.all (fun c => c.toNat < 0x10000)

mutual

/-- Well-formedness of a value as produced by `json.loads` / held in a
Python `dict`: object keys are pairwise distinct at every level, and
strings stay in the basic multilingual plane (the embedding does not model
surrogate-pair escapes). -/
def jok : JVal → Bool
  | .null => true
  | .bool _ => true
  | .int _ => true
  | .str s => strOk s
  | .arr l => jokList l
  | .obj l => jokMembers l

/-- Well-formedness of every element of an array. -/
def jokList : List JVal → Bool
  | [] => true
  | v :: tl => jok v && jokList tl

/-- Well-formedness of an object member list: a key never reappears later,
keys are in the basic plane, values are well-formed. -/
def jokMembers : List (List Char × JVal) → Bool
  | [] => true
  | (k, v) :: tl => strOk k && (tl.all (fun kv => kv.1 != k)) && jok v && jokMembers tl

end

/-! ### Model of `json.loads` -/

/-- JSON whitespace (space, tab, newline, carriage return). -/
def isWs (c : Char) : Bool :=
  c.toNat = 32 || c.toNat = 9 || c.toNat = 10 || c.toNat = 13

/-- Drop leading JSON whitespace. -/
def skipWs : List Char → List Char
  | [] => []
  | c :: r => if isWs c then skipWs r else c :: r

/-- ASCII decimal digit test. -/
def isDigitCh (c : Char) : Bool := 48 ≤ c.toNat && c.toNat ≤ 57

/-- Numeric value of a digit string (most significant first). -/
def digitsVal (l : List Char) : Nat :=
  l.foldl (fun a c => a * 10 + (c.toNat - 48)) 0

/-- Value of a hexadecimal digit character. -/
def hexVal (c : Char) : Option Nat :=
  if 48 ≤ c.toNat ∧ c.toNat ≤ 57 then some (c.toNat - 48)
  else if 97 ≤ c.toNat ∧ c.toNat ≤ 102 then some (c.toNat - 87)
  else if 65 ≤ c.toNat ∧ c.toNat ≤ 70 then some (c.toNat - 55)
  else none

/-- Python `dict` insertion: overwrite the value of an existing key in
place, otherwise append (`json.loads` builds objects this way, so a
duplicate key keeps the first position with the last value). -/
def insKV (k : List Char) (v : JVal) : List (List Char × JVal) → List (List Char × JVal)
  | [] => [(k, v)]
  | (k2, v2) :: tl => if k2 = k then (k2, v) :: tl else (k2, v2) :: insKV k v tl

/-- The character of a short escape sequence (`\" \\ \/ \b \f \n \r \t`). -/
def escShort (e : Char) : Option Char :=
  if e = '"' then some '"'
  else if e = '\\' then some '\\'
  else if e = '/' then some '/'
  else if e = 'b' then some (Char.ofNat 8)
  else if e = 'f' then some (Char.ofNat 12)
  else if e = 'n' then some (Char.ofNat 10)
  else if e = 'r' then some (Char.ofNat 13)
  else if e = 't' then some (Char.ofNat 9)
  else none

/-- Value of 4 hexadecimal digit characters. -/
def hex4 (h1 h2 h3 h4 : Char) : Option Nat :=
  match hexVal h1, hexVal h2, hexVal h3, hexVal h4 with
  | some a, some b, some c, some d => some (((a * 16 + b) * 16 + c) * 16 + d)
  | _, _, _, _ => none

mutual

/-- Body of a JSON string literal after the opening quote: unescapes up to
the closing quote, rejecting raw control characters (`json.loads` strict
mode). -/
def pStrBody : List Char → Option (List Char × List Char)
  | [] => none
  | c :: rest =>
    if c = '"' then some ([], rest)
    else if c = '\\' then pEscSeq rest
    else if c.toNat < 0x20 then none
    else (pStrBody rest).map (fun p => (c :: p.1, p.2))

/-- What follows a backslash inside a string literal. -/
def pEscSeq : List Char → Option (List Char × List Char)
  | [] => none
  | e :: r2 =>
    if e = 'u' then pUEsc r2
    else
      match escShort e with
      | some c => (pStrBody r2).map (fun p => (c :: p.1, p.2))
      | none => none

/-- A `\uXXXX` escape; a high surrogate must be completed by a low one
(as `json.loads` recombines pairs; a lone surrogate is not representable
as a Lean `Char` and is rejected). -/
def pUEsc : List Char → Option (List Char × List Char)
  | h1 :: h2 :: h3 :: h4 :: r3 =>
    match hex4 h1 h2 h3 h4 with
    | none => none
    | some n =>
      if 0xD800 ≤ n ∧ n ≤ 0xDBFF then pLowSurr n r3
      else if 0xDC00 ≤ n ∧ n ≤ 0xDFFF then none
      else (pStrBody r3).map (fun p => (Char.ofNat n :: p.1, p.2))
  | _ => none

/-- The low-surrogate escape completing a high surrogate `n`. -/
def pLowSurr (n : Nat) : List Char → Option (List Char × List Char)
  | e2 :: u2 :: g1 :: g2 :: g3 :: g4 :: r4 =>
    if e2 = '\\' ∧ u2 = 'u' then
      match hex4 g1 g2 g3 g4 with
      | none => none
      | some m =>
        if 0xDC00 ≤ m ∧ m ≤ 0xDFFF then
          (pStrBody r4).map (fun p =>
            (Char.ofNat (0x10000 + (n - 0xD800) * 0x400 + (m - 0xDC00)) :: p.1, p.2))
        else none
    else none
  | _ => none

end

mutual

/-- Fuel-driven recursive-descent JSON value (model of `json.loads`
grammar, integral numbers only).  All functions of the group consume one
unit of fuel per step so that the group is structurally recursive;
`parseTop` supplies fuel proportional to the input length, which always
suffices. -/
def pVal : Nat → List Char → Option (JVal × List Char)
  | 0, _ => none
  | fuel + 1, s0 =>
    match skipWs s0 with
    | [] => none
    | c :: r => pValCore fuel c r

/-- Dispatch on the first non-whitespace character of a value. -/
def pValCore : Nat → Char → List Char → Option (JVal × List Char)
  | 0, _, _ => none
  | fuel + 1, c, r =>
    if c = 'n' then (if r.take 3 = "ull".data then some (.null, r.drop 3) else none)
    else if c = 't' then (if r.take 3 = "rue".data then some (.bool true, r.drop 3) else none)
    else if c = 'f' then (if r.take 4 = "alse".data then some (.bool false, r.drop 4) else none)
    else if c = '"' then (pStrBody r).map (fun p => (.str p.1, p.2))
    else if c = '[' then pArrBody fuel r
    else if c = '\x7b' then pObjBody fuel r
    else if c = '-' then
      (if r.takeWhile isDigitCh = [] then none
       else some (.int (-(digitsVal (r.takeWhile isDigitCh) : Int)), r.dropWhile isDigitCh))
    else if isDigitCh c then
      some (.int (digitsVal ((c :: r).takeWhile isDigitCh)), (c :: r).dropWhile isDigitCh)
    else none

/-- After `"["`: empty array or first element and the element loop. -/
def pArrBody : Nat → List Char → Option (JVal × List Char)
  | 0, _ => none
  | fuel + 1, r =>
    match skipWs r with
    | [] => none
    | c :: r2 =>
      if c = ']' then some (.arr [], r2)
      else
        match pVal fuel r with
        | none => none
        | some (v, r3) => pArrRest fuel [v] r3

/-- After the opening brace: empty object or first member and the member
loop. -/
def pObjBody : Nat → List Char → Option (JVal × List Char)
  | 0, _ => none
  | fuel + 1, r =>
    match skipWs r with
    | [] => none
    | c :: r2 =>
      if c = '\x7d' then some (.obj [], r2)
      else
        match pMember fuel r with
        | none => none
        | some (k, v, r3) => pObjRest fuel [(k, v)] r3

/-- One object member: string key, `":"`, value. -/
def pMember : Nat → List Char → Option (List Char × JVal × List Char)
  | 0, _ => none
  | fuel + 1, s =>
    match skipWs s with
    | [] => none
    | c :: r =>
      if c = '"' then
        match pStrBody r with
        | none => none
        | some (k, r2) =>
          match skipWs r2 with
          | [] => none
          | c2 :: r3 =>
            if c2 = ':' then
              match pVal fuel r3 with
              | none => none
              | some (v, r4) => some (k, v, r4)
            else none
      else none

/-- Array elements after the first: `", elem"*` then `"]"`. -/
def pArrRest : Nat → List JVal → List Char → Option (JVal × List Char)
  | 0, _, _ => none
  | fuel + 1, acc, s =>
    match skipWs s with
    | [] => none
    | c :: r =>
      if c = ']' then some (.arr acc, r)
      else if c = ',' then
        match pVal fuel r with
        | none => none
        | some (v, r2) => pArrRest fuel (acc ++ [v]) r2
      else none

/-- Object members after the first: `", member"*` then the closing brace. -/
def pObjRest : Nat → List (List Char × JVal) → List Char → Option (JVal × List Char)
  | 0, _, _ => none
  | fuel + 1, acc, s =>
    match skipWs s with
    | [] => none
    | c :: r =>
      if c = '\x7d' then some (.obj acc, r)
      else if c = ',' then
        match pMember fuel r with
        | none => none
        | some (k, v, r2) => pObjRest fuel (insKV k v acc) r2
      else none

end

/-- Model of `json.loads` on a whole text: one value, then only trailing
whitespace. -/
def parseTop (s : List Char) : Option JVal :=
  match pVal (5 * (s.length + 1)) s with
  | none => none
  | some (v, r) => if skipWs r = [] then some v else none

/-! ### UTF-8 (model of `bytes.decode("utf-8")` / `str.encode("utf-8")`) -/

/-- UTF-8 encoding of one character. -/
def utf8EncChar (c : Char) : List Nat :=
  let n := c.toNat
  if n < 0x80 then [n]
  else if n < 0x800 then [0xC0 + n / 64, 0x80 + n % 64]
  else if n < 0x10000 then [0xE0 + n / 4096, 0x80 + n / 64 % 64, 0x80 + n % 64]
  else [0xF0 + n / 262144, 0x80 + n / 4096 % 64, 0x80 + n / 64 % 64, 0x80 + n % 64]

/-- UTF-8 encoding of a string (`str.encode("utf-8")`). -/
def utf8Enc (l : List Char) : List Nat := l.flatMap utf8EncChar

mutual

/-- Strict UTF-8 decoding (`bytes.decode("utf-8")`): `none` models
`UnicodeDecodeError`.  Split into one function per expected continuation
byte so that the recursion is structural. -/
def utf8Dec : List Nat → Option (List Char)
  | [] => some []
  | b :: r =>
    if b < 0x80 then (utf8Dec r).map (fun l => Char.ofNat b :: l)
    else if b < 0xC2 then none
    else if b < 0xE0 then utf8DecT1 (b - 0xC0) r
    else if b < 0xF0 then utf8DecT2 (b - 0xE0) r
    else if b < 0xF5 then utf8DecT3 (b - 0xF0) r
    else none

/-- Final continuation byte of a two-byte sequence. -/
def utf8DecT1 (acc : Nat) : List Nat → Option (List Char)
  | [] => none
  | b2 :: r2 =>
    if 0x80 ≤ b2 ∧ b2 < 0xC0 then
      (utf8Dec r2).map (fun l => Char.ofNat (acc * 64 + (b2 - 0x80)) :: l)
    else none

/-- First continuation byte of a three-byte sequence. -/
def utf8DecT2 (acc : Nat) : List Nat → Option (List Char)
  | [] => none
  | b2 :: r2 =>
    if 0x80 ≤ b2 ∧ b2 < 0xC0 then utf8DecF2 (acc * 64 + (b2 - 0x80)) r2
    else none

/-- Final continuation byte of a three-byte sequence; rejects overlong
encodings and surrogates. -/
def utf8DecF2 (acc : Nat) : List Nat → Option (List Char)
  | [] => none
  | b3 :: r2 =>
    if 0x80 ≤ b3 ∧ b3 < 0xC0 then
      if acc * 64 + (b3 - 0x80) < 0x800 ∨
          (0xD800 ≤ acc * 64 + (b3 - 0x80) ∧ acc * 64 + (b3 - 0x80) < 0xE000) then none
      else (utf8Dec r2).map (fun l => Char.ofNat (acc * 64 + (b3 - 0x80)) :: l)
    else none

/-- First continuation byte of a four-byte sequence. -/
def utf8DecT3 (acc : Nat) : List Nat → Option (List Char)
  | [] => none
  | b2 :: r2 =>
    if 0x80 ≤ b2 ∧ b2 < 0xC0 then utf8DecT4 (acc * 64 + (b2 - 0x80)) r2
    else none

/-- Second continuation byte of a four-byte sequence. -/
def utf8DecT4 (acc : Nat) : List Nat → Option (List Char)
  | [] => none
  | b3 :: r2 =>
    if 0x80 ≤ b3 ∧ b3 < 0xC0 then utf8DecF3 (acc * 64 + (b3 - 0x80)) r2
    else none

/-- Final continuation byte of a four-byte sequence; rejects overlong
encodings and positions beyond the Unicode range. -/
def utf8DecF3 (acc : Nat) : List Nat → Option (List Char)
  | [] => none
  | b4 :: r2 =>
    if 0x80 ≤ b4 ∧ b4 < 0xC0 then
      if acc * 64 + (b4 - 0x80) < 0x10000 ∨ 0x110000 ≤ acc * 64 + (b4 - 0x80) then none
      else (utf8Dec r2).map (fun l => Char.ofNat (acc * 64 + (b4 - 0x80)) :: l)
    else none

end

/-! ### Frame codec: `read_message` / `send_message`
(`native_host.py` lines 283-316) -/

/-- The 4 little-endian bytes of `struct.pack("<I", n)` (for `n < 2^32`). -/
def leBytes (n : Nat) : List Nat :=
  [n % 256, n / 256 % 256, n / 65536 % 256, n / 16777216 % 256]

/-- `struct.unpack("<I", b)[0]` of a 4-byte buffer. -/
def leVal : List Nat → Nat
  | b0 :: b1 :: b2 :: b3 :: _ => b0 + 256 * b1 + 65536 * b2 + 16777216 * b3
  | _ => 0

/-- What `read_message` returns: `msg none` is Python `None` — produced both
at end-of-stream / truncation and by `json.loads` on the payload `null`
(the two are the same Python value); `exc` models a raised exception. -/
inductive ReadResult where
  | msg (m : Option JVal) : ReadResult
  | exc (e : List Char) : ReadResult
deriving DecidableEq, Repr

/-- `json.loads` result as the Python object `read_message` returns:
top-level JSON `null` is Python `None`. -/
def pyOf (v : JVal) : Option JVal := if v = .null then none else some v

/-- `read_message()` (lines 283-302) on the remaining bytes of stdin:
fewer than 4 header bytes → `None`; fewer payload bytes than declared →
`None`; otherwise decode UTF-8 and parse JSON (either failure raises).
Also returns the bytes left unread on the stream. -/
def read_message (input : List Nat) : ReadResult × List Nat :=
  if input.length < 4 then (.msg none, [])
  else
    let message_length := leVal (input.take 4)
    let message_bytes := (input.drop 4).take message_length
    if message_bytes.length < message_length then (.msg none, [])
    else
      let rest := input.drop (4 + message_length)
      match utf8Dec message_bytes with
      | none => (.exc "UnicodeDecodeError".data, rest)
      | some cs =>
        match parseTop cs with
        | none => (.exc "JSONDecodeError".data, rest)
        | some v => (.msg (pyOf v), rest)

/-- `send_message(message)` (lines 305-316): the bytes written to stdout —
4-byte little-endian length of the UTF-8 encoded JSON, then that payload. -/
def send_message (message : JVal) : List Nat :=
  let encoded := utf8Enc (serJVal message)
  leBytes encoded.length ++ encoded

/-! ### Handler state, external collaborators, agent-event stream -/

/-- The mutable handler state the claims are about:
`NativeHostHandler.current_run_id`. -/
structure HState where
  current_run_id : Option (List Char)
deriving DecidableEq, Repr

/-- An outbound response/event: the Python dict passed to `send_message`,
with fields in construction order. -/
abbrev Resp := List (List Char × JVal)

/-- A block of a `claude_agent_sdk` `AssistantMessage`, as consumed by
`_chat_async_streaming`.  `toolResult.content` is the `str()` rendering of
`block.content` (`none` models a falsy/absent content). -/
inductive SDKBlock where
  | text (t : List Char) : SDKBlock
  | thinking (t : List Char) : SDKBlock
  | toolUse (name : List Char) (input : List (List Char × JVal)) : SDKBlock
  | toolResult (content : Option (List Char)) (isErr : Bool) : SDKBlock
deriving DecidableEq, Repr

/-- A message of the SDK response stream. -/
inductive SDKMsg where
  | assistant (blocks : List SDKBlock) : SDKMsg
  | result (isErr : Bool) (cost : JVal) (durationMs : JVal) : SDKMsg
deriving DecidableEq, Repr

/-- One run of the external chat engine: the messages the stream yields,
then an optional exception raised after them. -/
structure ChatRun where
  msgs : List SDKMsg
  err : Option (List Char)

/-- External collaborators (file system, config, generation engine, chat
engine, session registry), as consumed by the handlers.  An `Option (List
Char)` failure models a raised exception whose `str()` is the carried
message. -/
structure Ext where
  version : List Char
  configPath : List Char
  configModel : JVal
  harPathStr : List Char → List Char
  writeHar : List Char → JVal → Option (List Char)
  harExists : List Char → Bool
  scriptsDirStr : List Char → List Char
  generateRun : List Char → JVal → Except (List Char) Unit
  addRunErr : Option (List Char)
  chatRun : JVal → List Char → JVal → ChatRun

/-- Shorthand for a JSON string constant. -/
def jstr (s : String) : JVal := .str s.data

/-- Modelled `str(e)` of the `TypeError` raised by `Path / run_id` when the
supplied run id is not a string (caught by the handlers own `except`). -/
def pathTypeError : List Char := "unsupported operand type".data

/-- The ellipsis marker appended by the truncation sites. -/
def mark : List Char := "...".data

/-- `NativeHostHandler._summarize_tool_input` (lines 686-717).  `none`
models a `TypeError` raised on a non-string value where Python applies
`len`, slicing or `+ "..."` to it (propagates to the enclosing `except`);
`len` and plain slicing also work on Python lists/dicts, which is mirrored
where the source reaches only those. -/
def summarize_tool_input (tool_name : List Char) (input_data : List (List Char × JVal)) :
    Option Resp :=
  if tool_name = "Read".data then
    some [("file_path".data, jgetD input_data "file_path" (jstr ""))]
  else if tool_name = "Write".data then
    match jgetD input_data "content" (jstr "") with
    | .str content =>
      some [("file_path".data, jgetD input_data "file_path" (jstr "")),
            ("content_length".data, .int content.length),
            ("content_preview".data,
             .str (if content.length > 100 then content.take 100 ++ mark else content))]
    | .arr l =>
      if l.length > 100 then none
      else some [("file_path".data, jgetD input_data "file_path" (jstr "")),
                 ("content_length".data, .int l.length), ("content_preview".data, .arr l)]
    | .obj l =>
      if l.length > 100 then none
      else some [("file_path".data, jgetD input_data "file_path" (jstr "")),
                 ("content_length".data, .int l.length), ("content_preview".data, .obj l)]
    | _ => none
  else if tool_name = "Bash".data then
    match jgetD input_data "command" (jstr "") with
    | .str s => some [("command".data, .str (s.take 200))]
    | .arr l => some [("command".data, .arr (l.take 200))]
    | _ => none
  else if tool_name = "Glob".data then
    some [("pattern".data, jgetD input_data "pattern" (jstr ""))]
  else if tool_name = "Grep".data then
    some [("pattern".data, jgetD input_data "pattern" (jstr "")),
          ("path".data, jgetD input_data "path" (jstr ""))]
  else if tool_name = "Edit".data then
    match jgetD input_data "old_string" (jstr "") with
    | .str s =>
      some [("file_path".data, jgetD input_data "file_path" (jstr "")),
            ("old_string".data, .str (if s.length > 50 then s.take 50 ++ mark else s))]
    | .arr l =>
      if l.length > 50 then none
      else some [("file_path".data, jgetD input_data "file_path" (jstr "")),
                 ("old_string".data, .arr l)]
    | .obj l =>
      if l.length > 50 then none
      else some [("file_path".data, jgetD input_data "file_path" (jstr "")),
                 ("old_string".data, .obj l)]
    | _ => none
  else
    some (input_data.map (fun kv =>
      (kv.1, match kv.2 with
             | .str s => if s.length > 100 then .str (s.take 100 ++ mark) else .str s
             | v => v)))

/-! ### The streamed `agent_event` frames of `_chat_async_streaming`
(lines 602-679) -/

/-- `agent_event`/`text` frame (lines 608-614). -/
def agentEventText (t : List Char) : Resp :=
  [("type".data, jstr "agent_event"), ("event_type".data, jstr "text"),
   ("content".data, .str t)]

/-- `agent_event`/`thinking` frame (lines 615-622): content over 500
characters is cut to 500 plus `"..."`. -/
def agentEventThinking (t : List Char) : Resp :=
  [("type".data, jstr "agent_event"), ("event_type".data, jstr "thinking"),
   ("content".data, .str (if t.length > 500 then t.take 500 ++ mark else t))]

/-- `agent_event`/`tool_use` frame (lines 623-633). -/
def agentEventToolUse (tool_name : List Char) (summary : Resp) : Resp :=
  [("type".data, jstr "agent_event"), ("event_type".data, jstr "tool_use"),
   ("tool_name".data, .str tool_name), ("tool_input".data, .obj summary)]

/-- `agent_event`/`tool_result` frame (lines 634-649). -/
def agentEventToolResult (tool_name : List Char) (isErr : Bool) (output : List Char) : Resp :=
  [("type".data, jstr "agent_event"), ("event_type".data, jstr "tool_result"),
   ("tool_name".data, .str tool_name), ("is_error".data, .bool isErr),
   ("output".data, .str output)]

/-- `agent_event`/`done` frame (lines 651-661). -/
def agentEventDone (isErr : Bool) (cost durationMs : JVal) : Resp :=
  [("type".data, jstr "agent_event"), ("event_type".data, jstr "done"),
   ("is_error".data, .bool isErr), ("cost".data, cost), ("duration_ms".data, durationMs)]

/-- `agent_event`/`error` frame (lines 673-679). -/
def agentEventError (e : List Char) : Resp :=
  [("type".data, jstr "agent_event"), ("event_type".data, jstr "error"),
   ("message".data, .str e)]

/-- Accumulator of the `async for` loop of `_chat_async_streaming`:
frames sent so far (in send order), `final_text`, `last_tool_name`. -/
structure ChatAcc where
  frames : List Resp
  finalText : List Char
  lastTool : Option (List Char)
deriving DecidableEq, Repr

/-- The initial accumulator (`final_text = ""`, `last_tool_name = None`). -/
def chatAccInit : ChatAcc := ⟨[], [], none⟩

/-- One block of an `AssistantMessage` (lines 604-649): sends the matching
`agent_event` frame; a `TypeError` out of `_summarize_tool_input` aborts
the loop (second component). -/
def procBlock (acc : ChatAcc) (b : SDKBlock) : ChatAcc × Option (List Char) :=
  match b with
  | .text t =>
    ({ acc with frames := acc.frames ++ [agentEventText t],
                finalText := acc.finalText ++ t }, none)
  | .thinking t =>
    ({ acc with frames := acc.frames ++ [agentEventThinking t] }, none)
  | .toolUse name input =>
    match summarize_tool_input name input with
    | some s =>
      ({ acc with frames := acc.frames ++ [agentEventToolUse name s],
                  lastTool := some name }, none)
    | none => (acc, some "TypeError".data)
  | .toolResult content isErr =>
    let output := (content.map (fun s => s.take 500)).getD []
    let output2 := if output.length ≥ 500 then output ++ mark else output
    ({ acc with frames := acc.frames ++
        [agentEventToolResult (acc.lastTool.getD "Tool".data) isErr output2] }, none)

/-- The blocks of one `AssistantMessage`, in order. -/
def procBlocks (acc : ChatAcc) : List SDKBlock → ChatAcc × Option (List Char)
  | [] => (acc, none)
  | b :: tl =>
    match procBlock acc b with
    | (acc2, none) => procBlocks acc2 tl
    | (acc2, some e) => (acc2, some e)

/-- One SDK message: blocks of an `AssistantMessage`, or the
`done` frame of a `ResultMessage`. -/
def procMsg (acc : ChatAcc) : SDKMsg → ChatAcc × Option (List Char)
  | .assistant blocks => procBlocks acc blocks
  | .result isErr cost dur =>
    ({ acc with frames := acc.frames ++ [agentEventDone isErr cost dur] }, none)

/-- The whole SDK response stream, in order. -/
def procMsgs (acc : ChatAcc) : List SDKMsg → ChatAcc × Option (List Char)
  | [] => (acc, none)
  | m :: tl =>
    match procMsg acc m with
    | (acc2, none) => procMsgs acc2 tl
    | (acc2, some e) => (acc2, some e)

/-! ### Handlers (class `NativeHostHandler`) -/

/-- An `error` response of a handler (dict literal `type`/`message`/
`_callbackId`). -/
def errorResp (msg : List Char) (cb : JVal) : Resp :=
  [("type".data, jstr "error"), ("message".data, .str msg), ("_callbackId".data, cb)]

/-- An `error` response with `retryable: True` (generate paths). -/
def errorRespRetry (msg : List Char) (cb : JVal) : Resp :=
  [("type".data, jstr "error"), ("message".data, .str msg),
   ("retryable".data, .bool true), ("_callbackId".data, cb)]

/-- A `progress` frame of `_generate_async`. -/
def progressResp (msg : List Char) (percent : Nat) : Resp :=
  [("type".data, jstr "progress"), ("message".data, .str msg),
   ("percent".data, .int percent)]

/-- `handle_status` (lines 330-340). -/
def handle_status (st : HState) (ext : Ext) (message : Resp) :
    HState × List Resp × Resp :=
  (st, [],
   [("type".data, jstr "status"), ("connected".data, .bool true),
    ("version".data, .str ext.version), ("config_path".data, .str ext.configPath),
    ("_callbackId".data, jget message "_callbackId")])

/-- `handle_save_har` (lines 342-374): falsy `run_id`/`har` → error; the
write may raise (caught, reported); on success `current_run_id` is set and
a `complete` response returned. -/
def handle_save_har (st : HState) (ext : Ext) (message : Resp) :
    HState × List Resp × Resp :=
  let run_id := jget message "run_id"
  let har_data := jget message "har"
  if !truthy run_id || !truthy har_data then
    (st, [], errorResp "Missing run_id or har data".data (jget message "_callbackId"))
  else
    match run_id with
    | .str s =>
      match ext.writeHar s har_data with
      | some e => (st, [], errorResp e (jget message "_callbackId"))
      | none =>
        (⟨some s⟩, [],
         [("type".data, jstr "complete"), ("path".data, .str (ext.harPathStr s)),
          ("_callbackId".data, jget message "_callbackId")])
    | _ => (st, [], errorResp pathTypeError (jget message "_callbackId"))

/-- `handle_generate` with `_generate_async` inlined (lines 376-495):
explicit `run_id` falling back to the session cell, missing-HAR error, the
three fixed `progress` frames, generation, session registration, and the
`complete` response.  `current_run_id` is never assigned on this path. -/
def handle_generate (st : HState) (ext : Ext) (message : Resp) :
    HState × List Resp × Resp :=
  let run_id := if truthy (jget message "run_id") then jget message "run_id"
                else match st.current_run_id with | some s => .str s | none => .null
  let model := if truthy (jget message "model") then jget message "model"
               else ext.configModel
  if !truthy run_id then
    (st, [],
     errorResp "No run_id provided and no current session".data
       (jget message "_callbackId"))
  else
    match run_id with
    | .str s =>
      if !ext.harExists s then
        (st, [],
         errorResp ("HAR file not found: ".data ++ ext.harPathStr s)
           (jget message "_callbackId"))
      else
        let frames := [progressResp "Analyzing HAR file...".data 10,
                       progressResp "Generating API client with Claude...".data 30]
        match ext.generateRun s model with
        | .error e => (st, frames, errorRespRetry e (jget message "_callbackId"))
        | .ok _ =>
          let frames2 := frames ++ [progressResp "Generation complete".data 100]
          match ext.addRunErr with
          | some e => (st, frames2, errorRespRetry e (jget message "_callbackId"))
          | none =>
            (st, frames2,
             [("type".data, jstr "complete"),
              ("script_path".data, .str (ext.scriptsDirStr s)),
              ("run_id".data, .str s),
              ("_callbackId".data, jget message "_callbackId")])
    | _ => (st, [], errorRespRetry pathTypeError (jget message "_callbackId"))

/-- `_chat_async_streaming` (lines 526-684): missing-HAR error, model
fallback chain, the event-relay loop, then either the `chat_response`
terminal (setting `current_run_id`) or — when the engine or the loop
raised — one final `agent_event`/`error` frame and an `error` terminal. -/
def chat_async_streaming (st : HState) (ext : Ext) (user_message : JVal)
    (s : List Char) (message : Resp) : HState × List Resp × Resp :=
  if !ext.harExists s then
    (st, [],
     errorResp "No HAR file found. Please capture traffic first.".data
       (jget message "_callbackId"))
  else
    let model := if truthy (jget message "model") then jget message "model"
                 else if truthy ext.configModel then ext.configModel
                 else jstr "claude-sonnet-4-5"
    let run := ext.chatRun user_message s model
    match procMsgs chatAccInit run.msgs with
    | (acc, some e) =>
      (st, acc.frames ++ [agentEventError e], errorResp e (jget message "_callbackId"))
    | (acc, none) =>
      match run.err with
      | some e =>
        (st, acc.frames ++ [agentEventError e],
         errorResp e (jget message "_callbackId"))
      | none =>
        (⟨some s⟩, acc.frames,
         [("type".data, jstr "chat_response"),
          ("message".data,
           .str (if acc.finalText = [] then "Task completed.".data else acc.finalText)),
          ("content".data,
           .str (if acc.finalText = [] then "I\x27ve processed your request.".data
                 else acc.finalText)),
          ("_callbackId".data, jget message "_callbackId")])

/-- `handle_chat` (lines 497-524): falsy `message`/`run_id` checks with the
session fallback, then the streaming body (whose exceptions are caught and
reported with the `_callbackId`). -/
def handle_chat (st : HState) (ext : Ext) (message : Resp) :
    HState × List Resp × Resp :=
  let user_message := jget message "message"
  let run_id := if truthy (jget message "run_id") then jget message "run_id"
                else match st.current_run_id with | some s => .str s | none => .null
  if !truthy user_message then
    (st, [], errorResp "No message provided".data (jget message "_callbackId"))
  else if !truthy run_id then
    (st, [],
     errorResp "No active session. Please capture traffic first.".data
       (jget message "_callbackId"))
  else
    match run_id with
    | .str s => chat_async_streaming st ext user_message s message
    | _ => (st, [], errorResp pathTypeError (jget message "_callbackId"))

/-! ### Dispatcher (`handle_message`, lines 726-745, and `run_host`,
lines 748-768) -/

/-- What a handler invocation does at the dispatch boundary: return a
response, or raise. -/
inductive Outcome where
  | ok (r : Resp) : Outcome
  | raised (e : List Char) : Outcome
deriving DecidableEq, Repr

/-- Python `str()` of the scalar values an f-string can meet in the
unknown-type message (`arr`/`obj` never reach it: `dict.get` raises on an
unhashable key first). -/
def pyStr : JVal → List Char
  | .null => "None".data
  | .bool true => "True".data
  | .bool false => "False".data
  | .int n => intChars n
  | .str s => s
  | .arr _ => "<list>".data
  | .obj _ => "<dict>".data

/-- The unknown-`type` error response (lines 740-745). -/
def unknownTypeResp (t : JVal) (message : Resp) : Resp :=
  [("type".data, jstr "error"),
   ("message".data, .str ("Unknown message type: ".data ++ pyStr t)),
   ("_callbackId".data, jget message "_callbackId")]

/-- `handle_message` (lines 726-745).  On a non-dict (`json.loads` of a
non-object) `message.get` raises `AttributeError`; on a dict whose `type`
is a list or dict, `handlers.get(msg_type)` raises `TypeError: unhashable
type`; a hashable unknown `type` yields the error response echoing
`_callbackId`. -/
def handle_message (st : HState) (ext : Ext) (v : JVal) : HState × List Resp × Outcome :=
  match v with
  | .obj message =>
    match jget message "type" with
    | .arr _ => (st, [], .raised "unhashable type: list".data)
    | .obj _ => (st, [], .raised "unhashable type: dict".data)
    | .str t =>
      if t = "status".data then
        let h := handle_status st ext message
        (h.1, h.2.1, .ok h.2.2)
      else if t = "saveHar".data then
        let h := handle_save_har st ext message
        (h.1, h.2.1, .ok h.2.2)
      else if t = "generate".data then
        let h := handle_generate st ext message
        (h.1, h.2.1, .ok h.2.2)
      else if t = "chat".data then
        let h := handle_chat st ext message
        (h.1, h.2.1, .ok h.2.2)
      else (st, [], .ok (unknownTypeResp (.str t) message))
    | t => (st, [], .ok (unknownTypeResp t message))
  | _ => (st, [], .raised "AttributeError: get".data)

/-- The loop-boundary error frame of `run_host` (lines 761-768): `type` and
`message` only — no `_callbackId`. -/
def errFrameOf (e : List Char) : Resp :=
  [("type".data, jstr "error"), ("message".data, .str e)]

/-- The `while True` loop of `run_host` (lines 748-768), fuel-driven (the
fuel only bounds iterations; `input.length + 1` always suffices since every
continuing iteration consumes at least 4 bytes).  Returns every frame
written to stdout, in write order, and the final handler state.
`read_message() is None` → break (clean shutdown); an exception out of
`read_message` or `handle_message` → the boundary error frame, continue;
otherwise dispatch and append the terminal response. -/
def runHostF : Nat → HState → Ext → List Nat → List Resp × HState
  | 0, st, _, _ => ([], st)
  | fuel + 1, st, ext, input =>
    match read_message input with
    | (.msg none, _) => ([], st)
    | (.msg (some v), rest) =>
      match handle_message st ext v with
      | (st2, frames, .ok r) =>
        let t := runHostF fuel st2 ext rest
        (frames ++ r :: t.1, t.2)
      | (st2, frames, .raised e) =>
        let t := runHostF fuel st2 ext rest
        (frames ++ errFrameOf e :: t.1, t.2)
    | (.exc e, rest) =>
      let t := runHostF fuel st ext rest
      (errFrameOf e :: t.1, t.2)

/-- `run_host()` on a whole (finite) input stream. -/
def run_host (st : HState) (ext : Ext) (input : List Nat) : List Resp × HState :=
  runHostF (input.length + 1) st ext input

/-! ## Lemmas: digits and characters -/

theorem charToNat_ofNat_valid (n : Nat) (h : Nat.isValidChar n) :
    (Char.ofNat n).toNat = n := by
  unfold Char.ofNat
  rw [dif_pos h]
  rfl

theorem charToNat_ofNat_lo (n : Nat) (h : n < 0xD800) : (Char.ofNat n).toNat = n :=
  charToNat_ofNat_valid n (Or.inl h)

theorem char_eq_iff (a b : Char) : a = b ↔ a.toNat = b.toNat := by
  constructor
  · rintro rfl; rfl
  · intro h
    exact Char.eq_of_val_eq (UInt32.ext h)

theorem digitChar_toNat (d : Nat) (h : d < 10) : (digitChar d).toNat = 48 + d :=
  charToNat_ofNat_lo (48 + d) (by omega)

theorem hexVal_hexChar : ∀ d, d < 16 → hexVal (hexChar d) = some d := by decide

theorem natDigitsRevF_lt10 : ∀ fuel n d, d ∈ natDigitsRevF fuel n → d < 10 := by
  intro fuel
  induction fuel with
  | zero => intro n d h; simp [natDigitsRevF] at h
  | succ f ih =>
    intro n d h
    by_cases h0 : n = 0
    · simp [natDigitsRevF, h0] at h
    · simp only [natDigitsRevF, if_neg h0, List.mem_cons] at h
      rcases h with h | h
      · omega
      · exact ih _ _ h

theorem natDigitsRevF_val : ∀ fuel n, n ≤ fuel →
    (natDigitsRevF fuel n).foldr (fun d r => d + 10 * r) 0 = n := by
  intro fuel
  induction fuel with
  | zero => intro n h; interval_cases n; simp [natDigitsRevF]
  | succ f ih =>
    intro n h
    by_cases h0 : n = 0
    · simp [natDigitsRevF, h0]
    · simp only [natDigitsRevF, if_neg h0, List.foldr_cons]
      rw [ih (n / 10) (by omega)]
      omega

theorem natDigitsRevF_ne_nil (fuel n : Nat) (h0 : n ≠ 0) (h : n ≤ fuel) :
    natDigitsRevF fuel n ≠ [] := by
  cases fuel with
  | zero => omega
  | succ f => simp [natDigitsRevF, h0]

theorem digitsVal_gen (L : List Nat) : ∀ a, (∀ d ∈ L, d < 10) →
    List.foldl (fun acc c => acc * 10 + (c.toNat - 48)) a (L.reverse.map digitChar) =
      a * 10 ^ L.length + L.foldr (fun d r => d + 10 * r) 0 := by
  induction L with
  | nil => intro a _; simp
  | cons d tl ih =>
    intro a h
    simp only [List.reverse_cons, List.map_append, List.foldl_append, List.map_cons,
      List.map_nil, List.foldl_cons, List.foldl_nil, List.foldr_cons, List.length_cons]
    rw [ih a (fun x hx => h x (by simp [hx]))]
    rw [digitChar_toNat d (h d (by simp))]
    rw [pow_succ]
    ring_nf
    omega

theorem digitsVal_natChars (n : Nat) : digitsVal (natChars n) = n := by
  by_cases h0 : n = 0
  · simp [h0, natChars, digitsVal]
  · unfold natChars digitsVal
    rw [if_neg h0]
    rw [digitsVal_gen _ 0 (fun d hd => natDigitsRevF_lt10 n n d hd)]
    rw [natDigitsRevF_val n n le_rfl]
    omega

theorem natChars_digits (n : Nat) : ∀ c ∈ natChars n, isDigitCh c = true := by
  intro c hc
  unfold natChars at hc
  by_cases h0 : n = 0
  · rw [if_pos h0] at hc
    simp at hc
    subst hc
    decide
  · rw [if_neg h0] at hc
    simp only [List.mem_map, List.mem_reverse] at hc
    obtain ⟨d, hd, rfl⟩ := hc
    have : d < 10 := natDigitsRevF_lt10 n n d hd
    simp [isDigitCh, digitChar_toNat d this]
    omega

theorem natChars_ne_nil (n : Nat) : natChars n ≠ [] := by
  unfold natChars
  by_cases h0 : n = 0
  · simp [h0]
  · rw [if_neg h0]
    have := natDigitsRevF_ne_nil n n h0 le_rfl
    simp [this]

/-! ## Lemmas: string-literal round trip -/

theorem char_valid (c : Char) : c.toNat < 0xD800 ∨ 0xE000 ≤ c.toNat ∧ c.toNat < 0x110000 := by
  have h : Nat.isValidChar c.toNat := c.valid
  unfold Nat.isValidChar at h
  omega

theorem hex4_uEsc (n : Nat) (h : n < 0x10000) :
    hex4 (hexChar (n / 4096 % 16)) (hexChar (n / 256 % 16))
      (hexChar (n / 16 % 16)) (hexChar (n % 16)) = some n := by
  unfold hex4
  rw [hexVal_hexChar (n / 4096 % 16) (by omega), hexVal_hexChar (n / 256 % 16) (by omega),
      hexVal_hexChar (n / 16 % 16) (by omega), hexVal_hexChar (n % 16) (by omega)]
  show some _ = some n
  congr 1
  omega

theorem pStrBody_uEsc4 (n : Nat) (hlt : n < 0x10000) (hv : n < 0xD800 ∨ 0xE000 ≤ n)
    (rest : List Char) :
    pStrBody (uEsc4 n ++ rest) = (pStrBody rest).map (fun p => (Char.ofNat n :: p.1, p.2)) := by
  unfold uEsc4
  simp only [List.cons_append, List.nil_append]
  rw [pStrBody]
  simp only [Char.reduceEq, reduceIte]
  rw [pEscSeq]
  simp only [Char.reduceEq, reduceIte]
  rw [pUEsc]
  rw [hex4_uEsc n hlt]
  show (if 0xD800 ≤ n ∧ n ≤ 0xDBFF then pLowSurr n rest
        else if 0xDC00 ≤ n ∧ n ≤ 0xDFFF then none
        else (pStrBody rest).map (fun p => (Char.ofNat n :: p.1, p.2))) =
      (pStrBody rest).map (fun p => (Char.ofNat n :: p.1, p.2))
  rw [if_neg (by omega), if_neg (by omega)]

theorem pStrBody_escShort (c e : Char) (he : escShort e = some c)
    (hu : e ≠ 'u') (rest : List Char) :
    pStrBody ('\\' :: e :: rest) = (pStrBody rest).map (fun p => (c :: p.1, p.2)) := by
  rw [pStrBody, pEscSeq, if_neg hu, he]
  simp

theorem pStrBody_escape : ∀ s : List Char, strOk s = true → ∀ rest,
    pStrBody (s.flatMap escChar ++ '"' :: rest) = some (s, rest) := by
  intro s
  induction s with
  | nil =>
    intro _ rest
    simp only [List.flatMap_nil, List.nil_append]
    rw [pStrBody]
    simp only [Char.reduceEq, reduceIte]
  | cons c tl ih =>
    intro hok rest
    have hc : c.toNat < 0x10000 := by
      simp only [strOk, List.all_cons, Bool.and_eq_true, decide_eq_true_eq] at hok
      exact hok.1
    have htl : strOk tl = true := by
      simp only [strOk, List.all_cons, Bool.and_eq_true] at hok
      exact hok.2
    have hihm : (pStrBody (tl.flatMap escChar ++ '"' :: rest)).map
        (fun p => (c :: p.1, p.2)) = some (c :: tl, rest) := by
      rw [ih htl rest]; rfl
    simp only [List.flatMap_cons, List.append_assoc]
    by_cases h1 : c = '"'
    · subst h1
      rw [show escChar '"' = ['\\', '"'] from rfl]
      simp only [List.cons_append, List.nil_append]
      rw [pStrBody_escShort '"' '"' rfl (by decide)]
      exact hihm
    · by_cases h2 : c = '\\'
      · subst h2
        rw [show escChar '\\' = ['\\', '\\'] from rfl]
        simp only [List.cons_append, List.nil_append]
        rw [pStrBody_escShort '\\' '\\' rfl (by decide)]
        exact hihm
      · by_cases h3 : c.toNat = 8
        · rw [show escChar c = ['\\', 'b'] by
            unfold escChar; rw [if_neg h1, if_neg h2, if_pos h3]]
          simp only [List.cons_append, List.nil_append]
          rw [pStrBody_escShort (Char.ofNat 8) 'b' rfl (by decide)]
          rw [show Char.ofNat 8 = c by
            rw [char_eq_iff]; rw [charToNat_ofNat_lo 8 (by omega)]; omega]
          exact hihm
        · by_cases h4 : c.toNat = 9
          · rw [show escChar c = ['\\', 't'] by
              unfold escChar; rw [if_neg h1, if_neg h2, if_neg h3, if_pos h4]]
            simp only [List.cons_append, List.nil_append]
            rw [pStrBody_escShort (Char.ofNat 9) 't' rfl (by decide)]
            rw [show Char.ofNat 9 = c by
              rw [char_eq_iff]; rw [charToNat_ofNat_lo 9 (by omega)]; omega]
            exact hihm
          · by_cases h5 : c.toNat = 10
            · rw [show escChar c = ['\\', 'n'] by
                unfold escChar; rw [if_neg h1, if_neg h2, if_neg h3, if_neg h4, if_pos h5]]
              simp only [List.cons_append, List.nil_append]
              rw [pStrBody_escShort (Char.ofNat 10) 'n' rfl (by decide)]
              rw [show Char.ofNat 10 = c by
                rw [char_eq_iff]; rw [charToNat_ofNat_lo 10 (by omega)]; omega]
              exact hihm
            · by_cases h6 : c.toNat = 12
              · rw [show escChar c = ['\\', 'f'] by
                  unfold escChar
                  rw [if_neg h1, if_neg h2, if_neg h3, if_neg h4, if_neg h5, if_pos h6]]
                simp only [List.cons_append, List.nil_append]
                rw [pStrBody_escShort (Char.ofNat 12) 'f' rfl (by decide)]
                rw [show Char.ofNat 12 = c by
                  rw [char_eq_iff]; rw [charToNat_ofNat_lo 12 (by omega)]; omega]
                exact hihm
              · by_cases h7 : c.toNat = 13
                · rw [show escChar c = ['\\', 'r'] by
                    unfold escChar
                    rw [if_neg h1, if_neg h2, if_neg h3, if_neg h4, if_neg h5, if_neg h6,
                        if_pos h7]]
                  simp only [List.cons_append, List.nil_append]
                  rw [pStrBody_escShort (Char.ofNat 13) 'r' rfl (by decide)]
                  rw [show Char.ofNat 13 = c by
                    rw [char_eq_iff]; rw [charToNat_ofNat_lo 13 (by omega)]; omega]
                  exact hihm
                · by_cases h8 : c.toNat < 0x20
                  · rw [show escChar c = uEsc4 c.toNat by
                      unfold escChar
                      rw [if_neg h1, if_neg h2, if_neg h3, if_neg h4, if_neg h5, if_neg h6,
                          if_neg h7, if_pos h8]]
                    rw [pStrBody_uEsc4 c.toNat (by omega) (by omega)]
                    rw [Char.ofNat_toNat]
                    exact hihm
                  · by_cases h9 : c.toNat < 0x7f
                    · rw [show escChar c = [c] by
                        unfold escChar
                        rw [if_neg h1, if_neg h2, if_neg h3, if_neg h4, if_neg h5, if_neg h6,
                            if_neg h7, if_neg h8, if_pos h9]]
                      simp only [List.cons_append, List.nil_append]
                      rw [pStrBody]
                      rw [if_neg h1, if_neg h2, if_neg h8]
                      exact hihm
                    · rw [show escChar c = uEsc4 c.toNat by
                        unfold escChar
                        rw [if_neg h1, if_neg h2, if_neg h3, if_neg h4, if_neg h5, if_neg h6,
                            if_neg h7, if_neg h8, if_neg h9, if_pos hc]]
                      have hv := char_valid c
                      rw [pStrBody_uEsc4 c.toNat hc (by omega)]
                      rw [Char.ofNat_toNat]
                      exact hihm

/-! ## Lemmas: value round trip -/

mutual

/-- Fuel that suffices to parse the serialization of a value. -/
def jfuel : JVal → Nat
  | .null => 3
  | .bool _ => 3
  | .int _ => 3
  | .str _ => 3
  | .arr l => 3 + jfuelArr l
  | .obj l => 3 + jfuelObj l

/-- Fuel for the elements of an array. -/
def jfuelArr : List JVal → Nat
  | [] => 1
  | v :: tl => 1 + jfuel v + jfuelArr tl

/-- Fuel for the members of an object. -/
def jfuelObj : List (List Char × JVal) → Nat
  | [] => 1
  | (_, v) :: tl => 2 + jfuel v + jfuelObj tl

end

theorem char_ne (c d : Char) (h : c.toNat ≠ d.toNat) : c ≠ d :=
  fun he => h (by rw [he])

theorem digit_not_ws (c : Char) (h : isDigitCh c = true) : isWs c = false := by
  simp only [isDigitCh, Bool.and_eq_true, decide_eq_true_eq] at h
  simp only [isWs, Bool.or_eq_false_iff, decide_eq_false_iff_not]
  omega

theorem skipWs_not (c : Char) (l : List Char) (h : isWs c = false) :
    skipWs (c :: l) = c :: l := by
  simp [skipWs, h]

theorem pVal_cons (fuel : Nat) (s : List Char) (c : Char) (r : List Char)
    (h : skipWs s = c :: r) : pVal (fuel + 1) s = pValCore fuel c r := by
  rw [pVal, h]

theorem takeWhile_digits_app (l r : List Char) (hl : ∀ c ∈ l, isDigitCh c = true)
    (hr : ∀ c t, r = c :: t → isDigitCh c = false) :
    (l ++ r).takeWhile isDigitCh = l ∧ (l ++ r).dropWhile isDigitCh = r := by
  induction l with
  | nil =>
    simp only [List.nil_append]
    cases r with
    | nil => simp
    | cons c t => simp [List.takeWhile_cons, List.dropWhile_cons, hr c t rfl]
  | cons c tl ih =>
    have hc := hl c (by simp)
    have htl := ih (fun x hx => hl x (by simp [hx]))
    simp [List.takeWhile_cons, List.dropWhile_cons, hc, htl.1, htl.2]

theorem natChars_head_digit (n : Nat) :
    ∃ c t, natChars n = c :: t ∧ isDigitCh c = true := by
  obtain ⟨c, t, h⟩ := List.exists_cons_of_ne_nil (natChars_ne_nil n)
  exact ⟨c, t, h, natChars_digits n c (by rw [h]; simp)⟩

theorem pVal_int (fuel : Nat) (n : Int) (rest : List Char)
    (hr : ∀ c t, rest = c :: t → isDigitCh c = false) :
    pVal (fuel + 2) (intChars n ++ rest) = some (.int n, rest) := by
  by_cases hneg : n < 0
  · rw [show intChars n = '-' :: natChars n.natAbs by simp [intChars, hneg]]
    rw [List.cons_append]
    rw [pVal_cons (fuel + 1) _ '-' (natChars n.natAbs ++ rest) (skipWs_not _ _ (by decide))]
    rw [pValCore]
    simp only [Char.reduceEq, reduceIte]
    have htd := takeWhile_digits_app (natChars n.natAbs) rest (natChars_digits _) hr
    rw [htd.1, htd.2]
    rw [if_neg (natChars_ne_nil n.natAbs)]
    rw [digitsVal_natChars]
    simp only [Option.some.injEq, Prod.mk.injEq, JVal.int.injEq, and_true]
    omega
  · rw [show intChars n = natChars n.natAbs by simp [intChars, hneg]]
    obtain ⟨c0, t0, hnc, hdig⟩ := natChars_head_digit n.natAbs
    have hb : 48 ≤ c0.toNat ∧ c0.toNat ≤ 57 := by
      simpa [isDigitCh] using hdig
    rw [hnc, List.cons_append]
    rw [pVal_cons (fuel + 1) _ c0 (t0 ++ rest) (skipWs_not _ _ (digit_not_ws c0 hdig))]
    rw [pValCore]
    rw [if_neg (char_ne c0 'n' (by simp; omega)), if_neg (char_ne c0 't' (by simp; omega)),
        if_neg (char_ne c0 'f' (by simp; omega)), if_neg (char_ne c0 '"' (by simp; omega)),
        if_neg (char_ne c0 '[' (by simp; omega)), if_neg (char_ne c0 '\x7b' (by simp; omega)),
        if_neg (char_ne c0 '-' (by simp; omega)), if_pos hdig]
    rw [show c0 :: (t0 ++ rest) = natChars n.natAbs ++ rest by rw [hnc]; simp]
    have htd := takeWhile_digits_app (natChars n.natAbs) rest (natChars_digits _) hr
    rw [htd.1, htd.2]
    rw [digitsVal_natChars]
    simp only [Option.some.injEq, Prod.mk.injEq, JVal.int.injEq, and_true]
    omega

theorem serJVal_cons (v : JVal) :
    ∃ c t, serJVal v = c :: t ∧ isWs c = false ∧ c ≠ ']' ∧ c ≠ '\x7d' := by
  cases v with
  | null => exact ⟨'n', _, rfl, rfl, by decide, by decide⟩
  | bool b =>
    cases b with
    | true => refine ⟨'t', _, rfl, rfl, ?_, ?_⟩ <;> decide
    | false => refine ⟨'f', _, rfl, rfl, ?_, ?_⟩ <;> decide
  | int n =>
    by_cases hneg : n < 0
    · refine ⟨'-', natChars n.natAbs, ?_, by decide, by decide, by decide⟩
      simp [serJVal, intChars, hneg]
    · obtain ⟨c0, t0, hnc, hdig⟩ := natChars_head_digit n.natAbs
      have hb : 48 ≤ c0.toNat ∧ c0.toNat ≤ 57 := by simpa [isDigitCh] using hdig
      refine ⟨c0, t0, ?_, digit_not_ws c0 hdig,
        char_ne c0 ']' (by simp; omega), char_ne c0 '\x7d' (by simp; omega)⟩
      simp [serJVal, intChars, hneg, hnc]
  | str s => refine ⟨'"', _, rfl, rfl, ?_, ?_⟩ <;> decide
  | arr l =>
    cases l with
    | nil => exact ⟨'[', _, rfl, rfl, by decide, by decide⟩
    | cons v tl => refine ⟨'[', _, rfl, rfl, ?_, ?_⟩ <;> decide
  | obj l =>
    cases l with
    | nil => refine ⟨'\x7b', _, rfl, rfl, ?_, ?_⟩ <;> decide
    | cons kv tl =>
      obtain ⟨k, v⟩ := kv
      exact ⟨'\x7b', _, rfl, rfl, by decide, by decide⟩

theorem jfuel_pos : ∀ v : JVal, 3 ≤ jfuel v := by
  intro v
  cases v with
  | arr l => simp only [jfuel]; omega
  | obj l => simp only [jfuel]; omega
  | null => simp only [jfuel]; omega
  | bool b => simp only [jfuel]; omega
  | int n => simp only [jfuel]; omega
  | str s => simp only [jfuel]; omega

theorem skipWs_ws (c : Char) (l : List Char) (h : isWs c = true) :
    skipWs (c :: l) = skipWs l := by
  simp [skipWs, h]

theorem pVal_ws_irrel (fuel : Nat) (s s2 : List Char) (h : skipWs s = skipWs s2) :
    pVal (fuel + 1) s = pVal (fuel + 1) s2 := by
  rw [pVal, pVal, h]

theorem pMember_ws_irrel (fuel : Nat) (s s2 : List Char) (h : skipWs s = skipWs s2) :
    pMember (fuel + 1) s = pMember (fuel + 1) s2 := by
  rw [pMember, pMember, h]

theorem insKV_not_mem (k : List Char) (v : JVal) :
    ∀ acc : List (List Char × JVal), (∀ kv ∈ acc, kv.1 ≠ k) →
      insKV k v acc = acc ++ [(k, v)] := by
  intro acc
  induction acc with
  | nil => intro _; rfl
  | cons kv tl ih =>
    intro h
    obtain ⟨k2, v2⟩ := kv
    have hne : k2 ≠ k := h (k2, v2) (by simp)
    simp only [insKV, if_neg hne, List.cons_append, List.cons.injEq, true_and]
    exact ih (fun x hx => h x (by simp [hx]))

theorem pMember_ser (fuel : Nat) (k : List Char) (v : JVal) (X : List Char)
    (hk : strOk k = true) (hjv : jok v = true)
    (hrt : jok v = true → ∀ fuel2 rest, jfuel v ≤ fuel2 →
      (∀ c t, rest = c :: t → isDigitCh c = false) →
      pVal fuel2 (serJVal v ++ rest) = some (v, rest))
    (hfuel : jfuel v ≤ fuel)
    (hX : ∀ c t, X = c :: t → isDigitCh c = false) :
    pMember (fuel + 1) (serStr k ++ ':' :: ' ' :: (serJVal v ++ X)) = some (k, v, X) := by
  unfold serStr
  rw [pMember]
  have hlist : ('"' :: k.flatMap escChar ++ ['"']) ++ ':' :: ' ' :: (serJVal v ++ X) =
      '"' :: (k.flatMap escChar ++ '"' :: ':' :: ' ' :: (serJVal v ++ X)) := by simp
  rw [hlist, skipWs_not '"' _ (by decide)]
  simp only []
  simp only [Char.reduceEq, reduceIte]
  rw [pStrBody_escape k hk]
  simp only []
  rw [skipWs_not ':' _ (by decide)]
  simp only []
  simp only [Char.reduceEq, reduceIte]
  obtain ⟨f2, rfl⟩ : ∃ f2, fuel = f2 + 1 := by
    have := jfuel_pos v
    exact ⟨fuel - 1, by omega⟩
  rw [pVal_ws_irrel f2 (' ' :: (serJVal v ++ X)) (serJVal v ++ X)
      (skipWs_ws ' ' _ (by decide))]
  rw [hrt hjv (f2 + 1) X hfuel hX]

theorem serListTail_headOK (tl : List JVal) (rest : List Char) :
    ∀ c t, serListTail tl ++ ']' :: rest = c :: t → isDigitCh c = false := by
  intro c t h
  cases tl with
  | nil => simp [serListTail] at h; rw [← h.1]; decide
  | cons w tw =>
    rw [serListTail] at h
    simp only [List.cons_append, List.cons.injEq] at h
    rw [← h.1]; decide

theorem serMembersTail_headOK (tl : List (List Char × JVal)) (rest : List Char) :
    ∀ c t, serMembersTail tl ++ '\x7d' :: rest = c :: t → isDigitCh c = false := by
  intro c t h
  cases tl with
  | nil => simp [serMembersTail] at h; rw [← h.1]; decide
  | cons w tw =>
    obtain ⟨k2, v2⟩ := w
    rw [serMembersTail] at h
    simp only [List.cons_append, List.cons.injEq] at h
    rw [← h.1]; decide

theorem pArrRest_ser : ∀ tl : List JVal,
    (∀ w ∈ tl, jok w = true → ∀ fuel2 rest2, jfuel w ≤ fuel2 →
      (∀ c t, rest2 = c :: t → isDigitCh c = false) →
      pVal fuel2 (serJVal w ++ rest2) = some (w, rest2)) →
    (∀ w ∈ tl, jok w = true) →
    ∀ fuel acc rest, jfuelArr tl ≤ fuel →
      pArrRest fuel acc (serListTail tl ++ ']' :: rest) = some (.arr (acc ++ tl), rest) := by
  intro tl
  induction tl with
  | nil =>
    intro _ _ fuel acc rest hfuel
    obtain ⟨f, rfl⟩ : ∃ f, fuel = f + 1 := ⟨fuel - 1, by simp [jfuelArr] at hfuel; omega⟩
    rw [serListTail, List.nil_append]
    rw [pArrRest]
    rw [skipWs_not ']' _ (by decide)]
    simp only []
    simp only [Char.reduceEq, reduceIte, List.append_nil]
  | cons v tl2 ih =>
    intro hrt hjok fuel acc rest hfuel
    simp only [jfuelArr] at hfuel
    have hjp := jfuel_pos v
    obtain ⟨f, rfl⟩ : ∃ f, fuel = f + 1 := ⟨fuel - 1, by omega⟩
    rw [serListTail]
    rw [show (',' :: ' ' :: (serJVal v ++ serListTail tl2)) ++ ']' :: rest =
        ',' :: ' ' :: (serJVal v ++ (serListTail tl2 ++ ']' :: rest)) by simp]
    rw [pArrRest]
    rw [skipWs_not ',' _ (by decide)]
    simp only []
    simp only [Char.reduceEq, reduceIte]
    obtain ⟨f2, rfl⟩ : ∃ f2, f = f2 + 1 := ⟨f - 1, by omega⟩
    rw [pVal_ws_irrel f2 _ (serJVal v ++ (serListTail tl2 ++ ']' :: rest))
        (skipWs_ws ' ' _ (by decide))]
    rw [hrt v (by simp) (hjok v (by simp)) (f2 + 1) _ (by omega)
        (serListTail_headOK tl2 rest)]
    simp only []
    rw [ih (fun w hw => hrt w (by simp [hw])) (fun w hw => hjok w (by simp [hw]))
        (f2 + 1) (acc ++ [v]) rest (by omega)]
    simp

theorem pObjRest_ser : ∀ tl : List (List Char × JVal),
    (∀ kv ∈ tl, jok kv.2 = true → ∀ fuel2 rest2, jfuel kv.2 ≤ fuel2 →
      (∀ c t, rest2 = c :: t → isDigitCh c = false) →
      pVal fuel2 (serJVal kv.2 ++ rest2) = some (kv.2, rest2)) →
    jok (.obj tl) = true →
    ∀ fuel acc rest, jfuelObj tl ≤ fuel →
      (∀ kv ∈ acc, ∀ kv2 ∈ tl, kv.1 ≠ kv2.1) →
      pObjRest fuel acc (serMembersTail tl ++ '\x7d' :: rest) =
        some (.obj (acc ++ tl), rest) := by
  intro tl
  induction tl with
  | nil =>
    intro _ _ fuel acc rest hfuel _
    obtain ⟨f, rfl⟩ : ∃ f, fuel = f + 1 := ⟨fuel - 1, by simp [jfuelObj] at hfuel; omega⟩
    rw [serMembersTail, List.nil_append]
    rw [pObjRest]
    rw [skipWs_not '\x7d' _ (by decide)]
    simp only []
    simp only [Char.reduceEq, reduceIte, List.append_nil]
  | cons kv tl2 ih =>
    obtain ⟨k, v⟩ := kv
    intro hrt hjok fuel acc rest hfuel hdisj
    simp only [jok, jokMembers, Bool.and_eq_true] at hjok
    obtain ⟨⟨⟨hk, hnd⟩, hjv⟩, hjtl⟩ := hjok
    have hjtl2 : jok (.obj tl2) = true := by simp only [jok]; exact hjtl
    simp only [jfuelObj] at hfuel
    have hjp := jfuel_pos v
    obtain ⟨f, rfl⟩ : ∃ f, fuel = f + 1 := ⟨fuel - 1, by omega⟩
    rw [serMembersTail]
    rw [show (',' :: ' ' :: (serStr k ++ ':' :: ' ' :: serJVal v ++ serMembersTail tl2)) ++
          '\x7d' :: rest =
        ',' :: ' ' :: (serStr k ++ ':' :: ' ' ::
          (serJVal v ++ (serMembersTail tl2 ++ '\x7d' :: rest))) by simp]
    rw [pObjRest]
    rw [skipWs_not ',' _ (by decide)]
    simp only []
    simp only [Char.reduceEq, reduceIte]
    obtain ⟨f2, rfl⟩ : ∃ f2, f = f2 + 1 := ⟨f - 1, by omega⟩
    rw [pMember_ws_irrel f2 _ (serStr k ++ ':' :: ' ' ::
          (serJVal v ++ (serMembersTail tl2 ++ '\x7d' :: rest)))
        (by
          unfold serStr
          rw [show ' ' :: (('"' :: k.flatMap escChar ++ ['"']) ++ ':' :: ' ' ::
              (serJVal v ++ (serMembersTail tl2 ++ '\x7d' :: rest))) =
            ' ' :: ('"' :: (k.flatMap escChar ++ '"' :: ':' :: ' ' ::
              (serJVal v ++ (serMembersTail tl2 ++ '\x7d' :: rest)))) by simp]
          rw [skipWs_ws ' ' _ (by decide)]
          rw [show ('"' :: k.flatMap escChar ++ ['"']) ++ ':' :: ' ' ::
              (serJVal v ++ (serMembersTail tl2 ++ '\x7d' :: rest)) =
            '"' :: (k.flatMap escChar ++ '"' :: ':' :: ' ' ::
              (serJVal v ++ (serMembersTail tl2 ++ '\x7d' :: rest))) by simp])]
    rw [pMember_ser f2 k v _ hk hjv (hrt (k, v) (by simp)) (by omega)
        (serMembersTail_headOK tl2 rest)]
    simp only []
    rw [insKV_not_mem k v acc (fun x hx => hdisj x hx (k, v) (by simp))]
    rw [ih (fun w hw => hrt w (by simp [hw])) hjtl2 (f2 + 1) (acc ++ [(k, v)]) rest (by omega)
        (by
          intro kv2 hkv2 kv3 hkv3
          simp only [List.mem_append, List.mem_singleton] at hkv2
          rcases hkv2 with h2 | h2
          · exact hdisj kv2 h2 kv3 (by simp [hkv3])
          · subst h2
            simp only [List.all_eq_true] at hnd
            have := hnd kv3 hkv3
            simp only [bne_iff_ne, ne_eq] at this
            exact fun he => this he.symm)]
    simp

theorem jokList_mem : ∀ l : List JVal, jokList l = true → ∀ w ∈ l, jok w = true := by
  intro l
  induction l with
  | nil => intro _ w hw; simp at hw
  | cons v tl ih =>
    intro h w hw
    simp only [jokList, Bool.and_eq_true] at h
    rcases List.mem_cons.mp hw with rfl | hw2
    · exact h.1
    · exact ih h.2 w hw2

theorem pVal_ser : ∀ v : JVal, jok v = true → ∀ fuel rest, jfuel v ≤ fuel →
    (∀ c t, rest = c :: t → isDigitCh c = false) →
    pVal fuel (serJVal v ++ rest) = some (v, rest) := by
  intro v
  induction v using JVal.ind with
  | hnull =>
    intro _ fuel rest hfuel _
    obtain ⟨f, rfl⟩ : ∃ f, fuel = f + 2 := ⟨fuel - 2, by simp [jfuel] at hfuel; omega⟩
    rw [show serJVal .null ++ rest = 'n' :: ('u' :: 'l' :: 'l' :: rest) from rfl]
    rw [pVal_cons (f + 1) _ 'n' ('u' :: 'l' :: 'l' :: rest) (skipWs_not _ _ (by decide))]
    rw [pValCore]
    simp only [Char.reduceEq, reduceIte]
    simp [List.take, List.drop]
  | hbool b =>
    intro _ fuel rest hfuel _
    obtain ⟨f, rfl⟩ : ∃ f, fuel = f + 2 := ⟨fuel - 2, by simp [jfuel] at hfuel; omega⟩
    cases b with
    | true =>
      rw [show serJVal (.bool true) ++ rest = 't' :: ('r' :: 'u' :: 'e' :: rest) from rfl]
      rw [pVal_cons (f + 1) _ 't' ('r' :: 'u' :: 'e' :: rest) (skipWs_not _ _ (by decide))]
      rw [pValCore]
      simp only [Char.reduceEq, reduceIte]
      simp [List.take, List.drop]
    | false =>
      rw [show serJVal (.bool false) ++ rest =
          'f' :: ('a' :: 'l' :: 's' :: 'e' :: rest) from rfl]
      rw [pVal_cons (f + 1) _ 'f' ('a' :: 'l' :: 's' :: 'e' :: rest)
          (skipWs_not _ _ (by decide))]
      rw [pValCore]
      simp only [Char.reduceEq, reduceIte]
      simp [List.take, List.drop]
  | hint n =>
    intro _ fuel rest hfuel hr
    obtain ⟨f, rfl⟩ : ∃ f, fuel = f + 2 := ⟨fuel - 2, by simp [jfuel] at hfuel; omega⟩
    rw [show serJVal (.int n) = intChars n from rfl]
    exact pVal_int f n rest hr
  | hstr s =>
    intro hjok fuel rest hfuel _
    obtain ⟨f, rfl⟩ : ∃ f, fuel = f + 2 := ⟨fuel - 2, by simp [jfuel] at hfuel; omega⟩
    have hok : strOk s = true := by simpa [jok] using hjok
    rw [show serJVal (.str s) ++ rest =
        '"' :: (s.flatMap escChar ++ '"' :: rest) by
      show serStr s ++ rest = _
      unfold serStr
      simp]
    rw [pVal_cons (f + 1) _ '"' (s.flatMap escChar ++ '"' :: rest)
        (skipWs_not _ _ (by decide))]
    rw [pValCore]
    simp only [Char.reduceEq, reduceIte]
    rw [pStrBody_escape s hok]
    rfl
  | harr l ih =>
    intro hjok fuel rest hfuel hr
    cases l with
    | nil =>
      obtain ⟨f, rfl⟩ : ∃ f, fuel = f + 3 :=
        ⟨fuel - 3, by simp [jfuel, jfuelArr] at hfuel; omega⟩
      rw [show serJVal (.arr []) ++ rest = '[' :: (']' :: rest) from rfl]
      rw [pVal_cons (f + 2) _ '[' (']' :: rest) (skipWs_not _ _ (by decide))]
      rw [pValCore]
      simp only [Char.reduceEq, reduceIte]
      rw [pArrBody, skipWs_not ']' _ (by decide)]
      simp only []
      simp only [Char.reduceEq, reduceIte]
    | cons v tl =>
      simp only [jok, jokList, Bool.and_eq_true] at hjok
      obtain ⟨hjv, hjtl⟩ := hjok
      simp only [jfuel, jfuelArr] at hfuel
      obtain ⟨f, rfl⟩ : ∃ f, fuel = f + 3 := ⟨fuel - 3, by omega⟩
      rw [show serJVal (.arr (v :: tl)) ++ rest =
          '[' :: (serJVal v ++ (serListTail tl ++ ']' :: rest)) by
        rw [show serJVal (.arr (v :: tl)) =
            '[' :: (serJVal v ++ serListTail tl) ++ [']'] from rfl]
        simp]
      rw [pVal_cons (f + 2) _ '[' (serJVal v ++ (serListTail tl ++ ']' :: rest))
          (skipWs_not _ _ (by decide))]
      rw [pValCore]
      simp only [Char.reduceEq, reduceIte]
      obtain ⟨c1, t1, hser, hnws, hne1, hne2⟩ := serJVal_cons v
      have hskip : skipWs (serJVal v ++ (serListTail tl ++ ']' :: rest)) =
          c1 :: (t1 ++ (serListTail tl ++ ']' :: rest)) := by
        rw [hser, List.cons_append]
        exact skipWs_not c1 _ hnws
      rw [pArrBody, hskip]
      simp only []
      rw [if_neg hne1]
      rw [ih v (by simp) hjv f _ (by omega) (serListTail_headOK tl rest)]
      simp only []
      rw [pArrRest_ser tl (fun w hw => ih w (by simp [hw])) (jokList_mem tl hjtl)
          f [v] rest (by omega)]
      simp
  | hobj l ih =>
    intro hjok fuel rest hfuel hr
    cases l with
    | nil =>
      obtain ⟨f, rfl⟩ : ∃ f, fuel = f + 3 :=
        ⟨fuel - 3, by simp [jfuel, jfuelObj] at hfuel; omega⟩
      rw [show serJVal (.obj []) ++ rest = '\x7b' :: ('\x7d' :: rest) from rfl]
      rw [pVal_cons (f + 2) _ '\x7b' ('\x7d' :: rest) (skipWs_not _ _ (by decide))]
      rw [pValCore]
      simp only [Char.reduceEq, reduceIte]
      rw [pObjBody, skipWs_not '\x7d' _ (by decide)]
      simp only []
      simp only [Char.reduceEq, reduceIte]
    | cons kv tl =>
      obtain ⟨k, v⟩ := kv
      simp only [jok, jokMembers, Bool.and_eq_true] at hjok
      obtain ⟨⟨⟨hk, hnd⟩, hjv⟩, hjtl⟩ := hjok
      have hjtl2 : jok (.obj tl) = true := by simp only [jok]; exact hjtl
      simp only [jfuel, jfuelObj] at hfuel
      obtain ⟨f, rfl⟩ : ∃ f, fuel = f + 4 := ⟨fuel - 4, by omega⟩
      rw [show serJVal (.obj ((k, v) :: tl)) ++ rest =
          '\x7b' :: (serStr k ++ ':' :: ' ' ::
            (serJVal v ++ (serMembersTail tl ++ '\x7d' :: rest))) by
        rw [show serJVal (.obj ((k, v) :: tl)) =
            '\x7b' :: (serStr k ++ ':' :: ' ' :: serJVal v ++ serMembersTail tl) ++
              ['\x7d'] from rfl]
        simp]
      rw [pVal_cons (f + 3) _ '\x7b' _ (skipWs_not _ _ (by decide))]
      rw [pValCore]
      simp only [Char.reduceEq, reduceIte]
      have hskip : skipWs (serStr k ++ ':' :: ' ' ::
          (serJVal v ++ (serMembersTail tl ++ '\x7d' :: rest))) =
          '"' :: (k.flatMap escChar ++ '"' :: ':' :: ' ' ::
            (serJVal v ++ (serMembersTail tl ++ '\x7d' :: rest))) := by
        unfold serStr
        rw [show ('"' :: k.flatMap escChar ++ ['"']) ++ ':' :: ' ' ::
            (serJVal v ++ (serMembersTail tl ++ '\x7d' :: rest)) =
          '"' :: (k.flatMap escChar ++ '"' :: ':' :: ' ' ::
            (serJVal v ++ (serMembersTail tl ++ '\x7d' :: rest))) by simp]
        exact skipWs_not '"' _ (by decide)
      rw [pObjBody, hskip]
      simp only []
      simp only [Char.reduceEq, reduceIte]
      rw [pMember_ser f k v _ hk hjv (ih (k, v) (by simp)) (by omega)
          (serMembersTail_headOK tl rest)]
      simp only []
      rw [pObjRest_ser tl (fun w hw => ih w (by simp [hw])) hjtl2 (f + 1) [(k, v)] rest
          (by omega)
          (by
            intro kv2 hkv2 kv3 hkv3
            simp only [List.mem_singleton] at hkv2
            subst hkv2
            simp only [List.all_eq_true] at hnd
            have := hnd kv3 hkv3
            simp only [bne_iff_ne, ne_eq] at this
            exact fun he => this he.symm)]
      simp

theorem serStr_len (s : List Char) : 2 ≤ (serStr s).length := by
  simp [serStr]

theorem jfuelArr_le (l : List JVal)
    (h : ∀ v ∈ l, jfuel v ≤ 5 * (serJVal v).length) :
    jfuelArr l ≤ 5 * (serListTail l).length + 1 := by
  induction l with
  | nil => simp [jfuelArr, serListTail]
  | cons v tl ih =>
    have hv := h v (by simp)
    have htl := ih (fun w hw => h w (by simp [hw]))
    simp only [jfuelArr, serListTail, List.length_cons, List.length_append]
    omega

theorem jfuelObj_le (l : List (List Char × JVal))
    (h : ∀ kv ∈ l, jfuel kv.2 ≤ 5 * (serJVal kv.2).length) :
    jfuelObj l ≤ 5 * (serMembersTail l).length + 1 := by
  induction l with
  | nil => simp [jfuelObj, serMembersTail]
  | cons kv tl ih =>
    obtain ⟨k, v⟩ := kv
    have hv : jfuel v ≤ 5 * (serJVal v).length := h (k, v) (by simp)
    have htl := ih (fun w hw => h w (by simp [hw]))
    have hs := serStr_len k
    simp only [jfuelObj, serMembersTail, List.length_cons, List.length_append]
    omega

theorem jfuel_le : ∀ v : JVal, jfuel v ≤ 5 * (serJVal v).length := by
  intro v
  induction v using JVal.ind with
  | hnull => decide
  | hbool b => cases b <;> decide
  | hint n =>
    obtain ⟨c1, t1, hser, _, _, _⟩ := serJVal_cons (.int n)
    rw [hser]
    simp only [jfuel, List.length_cons]
    omega
  | hstr s =>
    obtain ⟨c1, t1, hser, _, _, _⟩ := serJVal_cons (.str s)
    rw [hser]
    simp only [jfuel, List.length_cons]
    omega
  | harr l ih =>
    cases l with
    | nil => decide
    | cons v tl =>
      have hv := ih v (by simp)
      have htl := jfuelArr_le tl (fun w hw => ih w (by simp [hw]))
      simp only [jfuel, jfuelArr, serJVal, List.length_append, List.length_cons]
      omega
  | hobj l ih =>
    cases l with
    | nil => decide
    | cons kv tl =>
      obtain ⟨k, v⟩ := kv
      have hv : jfuel v ≤ 5 * (serJVal v).length := ih (k, v) (by simp)
      have htl := jfuelObj_le tl (fun w hw => ih w (by simp [hw]))
      have hs := serStr_len k
      simp only [jfuel, jfuelObj, serJVal, List.length_append, List.length_cons]
      omega

theorem parseTop_ser (v : JVal) (h : jok v = true) :
    parseTop (serJVal v) = some v := by
  unfold parseTop
  have hp := pVal_ser v h (5 * ((serJVal v).length + 1)) []
    (by have := jfuel_le v; omega)
    (by intro c t hct; cases hct)
  rw [List.append_nil] at hp
  rw [hp]
  simp [skipWs]

theorem utf8Dec_encChar (c : Char) (r : List Nat) :
    utf8Dec (utf8EncChar c ++ r) = (utf8Dec r).map (fun l => c :: l) := by
  have hv : c.toNat < 0xD800 ∨ (0xE000 ≤ c.toNat ∧ c.toNat < 0x110000) := c.valid
  by_cases h1 : c.toNat < 0x80
  · rw [show utf8EncChar c = [c.toNat] by simp only [utf8EncChar]; rw [if_pos h1]]
    rw [List.singleton_append, utf8Dec, if_pos h1, Char.ofNat_toNat]
  · by_cases h2 : c.toNat < 0x800
    · rw [show utf8EncChar c = [0xC0 + c.toNat / 64, 0x80 + c.toNat % 64] by
        simp only [utf8EncChar]; rw [if_neg h1, if_pos h2]]
      rw [List.cons_append, List.cons_append, List.nil_append, utf8Dec]
      rw [if_neg (by omega), if_neg (by omega), if_pos (by omega)]
      rw [utf8DecT1, if_pos (by omega)]
      rw [show (0xC0 + c.toNat / 64 - 0xC0) * 64 + (0x80 + c.toNat % 64 - 0x80) =
        c.toNat by omega]
      rw [Char.ofNat_toNat]
    · by_cases h3 : c.toNat < 0x10000
      · rw [show utf8EncChar c =
            [0xE0 + c.toNat / 4096, 0x80 + c.toNat / 64 % 64, 0x80 + c.toNat % 64] by
          simp only [utf8EncChar]; rw [if_neg h1, if_neg h2, if_pos h3]]
        rw [List.cons_append, List.cons_append, List.cons_append, List.nil_append, utf8Dec]
        rw [if_neg (by omega), if_neg (by omega), if_neg (by omega), if_pos (by omega)]
        rw [utf8DecT2, if_pos (by omega)]
        rw [utf8DecF2, if_pos (by omega), if_neg (by omega)]
        rw [show ((0xE0 + c.toNat / 4096 - 0xE0) * 64 + (0x80 + c.toNat / 64 % 64 - 0x80)) *
              64 + (0x80 + c.toNat % 64 - 0x80) = c.toNat by omega]
        rw [Char.ofNat_toNat]
      · rw [show utf8EncChar c =
            [0xF0 + c.toNat / 262144, 0x80 + c.toNat / 4096 % 64,
             0x80 + c.toNat / 64 % 64, 0x80 + c.toNat % 64] by
          simp only [utf8EncChar]; rw [if_neg h1, if_neg h2, if_neg h3]]
        rw [List.cons_append, List.cons_append, List.cons_append, List.cons_append,
            List.nil_append, utf8Dec]
        rw [if_neg (by omega), if_neg (by omega), if_neg (by omega), if_neg (by omega),
            if_pos (by omega)]
        rw [utf8DecT3, if_pos (by omega)]
        rw [utf8DecT4, if_pos (by omega)]
        rw [utf8DecF3, if_pos (by omega), if_neg (by omega)]
        rw [show (((0xF0 + c.toNat / 262144 - 0xF0) * 64 + (0x80 + c.toNat / 4096 % 64 -
              0x80)) * 64 + (0x80 + c.toNat / 64 % 64 - 0x80)) * 64 +
              (0x80 + c.toNat % 64 - 0x80) = c.toNat by omega]
        rw [Char.ofNat_toNat]

theorem utf8Dec_enc (l : List Char) : utf8Dec (utf8Enc l) = some l := by
  induction l with
  | nil => rfl
  | cons c tl ih =>
    rw [show utf8Enc (c :: tl) = utf8EncChar c ++ utf8Enc tl by simp [utf8Enc]]
    rw [utf8Dec_encChar, ih]
    rfl

theorem leVal_leBytes (n : Nat) (h : n < 2 ^ 32) : leVal (leBytes n) = n := by
  simp only [leBytes, leVal]
  omega

/-- Claim C6: the frame codec round-trips — encoding a JSON-serializable
value, writing it as a length-prefixed frame, reading the frame back and
decoding yields the same value (with top-level JSON `null` read back as
Python `None`, which is `pyOf`), leaving any following bytes unread. -/
theorem read_send_message (v : JVal) (extra : List Nat) (hjok : jok v = true)
    (h32 : (utf8Enc (serJVal v)).length < 2 ^ 32) :
    read_message (send_message v ++ extra) = (.msg (pyOf v), extra) := by
  unfold send_message read_message
  simp only []
  rw [List.append_assoc]
  rw [if_neg (by
    simp only [List.length_append, leBytes, List.length_cons, List.length_nil]
    omega)]
  have htake : (leBytes (utf8Enc (serJVal v)).length ++
      (utf8Enc (serJVal v) ++ extra)).take 4 = leBytes (utf8Enc (serJVal v)).length := rfl
  have hdrop : (leBytes (utf8Enc (serJVal v)).length ++
      (utf8Enc (serJVal v) ++ extra)).drop 4 = utf8Enc (serJVal v) ++ extra := rfl
  rw [htake, hdrop, leVal_leBytes _ h32]
  rw [List.take_left]
  rw [if_neg (by omega)]
  rw [show (leBytes (utf8Enc (serJVal v)).length ++
      (utf8Enc (serJVal v) ++ extra)).drop (4 + (utf8Enc (serJVal v)).length) = extra by
    rw [show 4 + (utf8Enc (serJVal v)).length =
        (leBytes (utf8Enc (serJVal v)).length).length + (utf8Enc (serJVal v)).length by
      simp [leBytes]]
    rw [← List.drop_drop, List.drop_left, List.drop_left]]
  rw [utf8Dec_enc]
  simp only []
  rw [parseTop_ser v hjok]

/-! ### Concrete external collaborators and frames (used by the closed
statements below) -/

/-- A concrete collaborator environment: every external operation
succeeds, every HAR exists, the chat engine returns an empty stream. -/
def ext0 : Ext :=
  ⟨"1.0.0".data, "/cfg/config.json".data, .null,
   fun r => "/hars/".data ++ r ++ ".har".data,
   fun _ _ => none,
   fun _ => true,
   fun r => "/scripts/".data ++ r,
   fun _ _ => .ok (),
   none,
   fun _ _ _ => ⟨[], none⟩⟩

/-- `ext0` with a chat engine that streams `msgs` and then raises `err`. -/
def extChat (msgs : List SDKMsg) (err : Option (List Char)) : Ext :=
  ⟨"1.0.0".data, "/cfg/config.json".data, .null,
   fun r => "/hars/".data ++ r ++ ".har".data,
   fun _ _ => none,
   fun _ => true,
   fun r => "/scripts/".data ++ r,
   fun _ _ => .ok (),
   none,
   fun _ _ _ => ⟨msgs, err⟩⟩

/-- The length-prefixed frame whose payload is the UTF-8 encoding of `s`. -/
def frameOf (s : String) : List Nat :=
  leBytes (utf8Enc s.data).length ++ utf8Enc s.data


/-- Whether a value can be a `dict` key lookup argument without raising
`TypeError: unhashable type` (lists and dicts cannot). -/
def hashable : JVal → Bool
  | .arr _ => false
  | .obj _ => false
  | _ => true

/-- A message dict with every binding of key `k` removed: "the field is
omitted". -/
def delKey (k : List Char) (m : Resp) : Resp :=
  m.filter (fun kv => !(kv.1 == k))

/-- A payload that decodes and parses neither to a JSON object nor to the
JSON literal `null` (also: one that fails UTF-8 decoding or JSON parsing).
These are the payloads `MalformedMessage` is about. -/
def nonObjPayload (p : List Nat) : Bool :=
  match utf8Dec p with
  | none => true
  | some cs =>
    match parseTop cs with
    | none => true
    | some (.obj _) => false
    | some .null => false
    | some _ => true

/-! ## Lemmas: the frame codec and the dispatch loop -/

/-- What `read_message` does on a well-formed frame followed by more
bytes: the header is consumed, the payload is decoded, and the following
bytes are left on the stream. -/
theorem read_message_frame (p extra : List Nat) (h32 : p.length < 2 ^ 32) :
    read_message (leBytes p.length ++ (p ++ extra)) =
      (match utf8Dec p with
       | none => (.exc "UnicodeDecodeError".data, extra)
       | some cs =>
         match parseTop cs with
         | none => (.exc "JSONDecodeError".data, extra)
         | some v => (.msg (pyOf v), extra)) := by
  unfold read_message
  rw [if_neg (by
    simp only [List.length_append, leBytes, List.length_cons, List.length_nil]
    omega)]
  have htake : (leBytes p.length ++ (p ++ extra)).take 4 = leBytes p.length := rfl
  have hdrop : (leBytes p.length ++ (p ++ extra)).drop 4 = p ++ extra := rfl
  rw [htake, hdrop, leVal_leBytes _ h32]
  simp only []
  rw [List.take_left]
  rw [if_neg (by omega)]
  rw [show (leBytes p.length ++ (p ++ extra)).drop (4 + p.length) = extra by
    rw [show 4 + p.length = (leBytes p.length).length + p.length by simp [leBytes]]
    rw [← List.drop_drop, List.drop_left, List.drop_left]]

theorem jget_cons_eq (k : String) (v : JVal) (m : Resp) : jget ((k.data, v) :: m) k = v := by
  simp [jget, List.lookup]

theorem jget_cons_ne (k2 : List Char) (v : JVal) (m : Resp) (k : String)
    (h : (k.data == k2) = false) : jget ((k2, v) :: m) k = jget m k := by
  simp only [jget, List.lookup, h]

theorem lookup_delKey_self (k : List Char) (m : Resp) :
    List.lookup k (delKey k m) = none := by
  induction m with
  | nil => rfl
  | cons kv tl ih =>
    obtain ⟨k2, v⟩ := kv
    cases hb : (k2 == k)
    · have hstep : delKey k ((k2, v) :: tl) = (k2, v) :: delKey k tl := by
        simp [delKey, List.filter_cons, hb]
      rw [hstep]
      simp only [List.lookup]
      rw [show (k == k2) = false from beq_eq_false_iff_ne.mpr
        (Ne.symm (beq_eq_false_iff_ne.mp hb))]
      simp only [reduceIte]
      exact ih
    · have hstep : delKey k ((k2, v) :: tl) = delKey k tl := by
        simp [delKey, List.filter_cons, hb]
      rw [hstep]
      exact ih

theorem lookup_delKey_ne (k k2 : List Char) (m : Resp) (h : (k2 == k) = false) :
    List.lookup k2 (delKey k m) = List.lookup k2 m := by
  induction m with
  | nil => rfl
  | cons kv tl ih =>
    obtain ⟨k3, v⟩ := kv
    cases hb : (k3 == k)
    · have hstep : delKey k ((k3, v) :: tl) = (k3, v) :: delKey k tl := by
        simp [delKey, List.filter_cons, hb]
      rw [hstep]
      simp only [List.lookup]
      cases hb2 : (k2 == k3)
      · exact ih
      · rfl
    · have hk3 : k3 = k := beq_iff_eq.mp hb
      have hstep : delKey k ((k3, v) :: tl) = delKey k tl := by
        simp [delKey, List.filter_cons, hb]
      rw [hstep, ih]
      subst hk3
      simp only [List.lookup]
      rw [h]

theorem jget_delKey_self (k : String) (m : Resp) : jget (delKey k.data m) k = .null := by
  simp [jget, lookup_delKey_self]

theorem jget_delKey_ne (k : List Char) (m : Resp) (k2 : String)
    (h : (k2.data == k) = false) : jget (delKey k m) k2 = jget m k2 := by
  simp [jget, lookup_delKey_ne k k2.data m h]

theorem runHostF_out_empty_iff (fuel : Nat) (st : HState) (ext : Ext) (input : List Nat) :
    (runHostF (fuel + 1) st ext input).1 = [] ↔ (read_message input).1 = .msg none := by
  rw [runHostF]
  rcases hr : read_message input with ⟨res, rest⟩
  cases res with
  | msg om =>
    cases om with
    | none => simp
    | some v =>
      rcases hm : handle_message st ext v with ⟨st2, frames, out⟩
      cases out with
      | ok r => simp [hm]
      | raised e => simp [hm]
  | exc e => simp

theorem read_none_iff (input : List Nat) :
    (read_message input).1 = .msg none ↔
      input.length < 4 ∨
      ((input.drop 4).take (leVal (input.take 4))).length < leVal (input.take 4) ∨
      ∃ cs, utf8Dec ((input.drop 4).take (leVal (input.take 4))) = some cs ∧
        parseTop cs = some .null := by
  unfold read_message
  by_cases h4 : input.length < 4
  · rw [if_pos h4]
    exact ⟨fun _ => Or.inl h4, fun _ => rfl⟩
  · rw [if_neg h4]
    simp only []
    by_cases hshort :
        ((input.drop 4).take (leVal (input.take 4))).length < leVal (input.take 4)
    · rw [if_pos hshort]
      exact ⟨fun _ => Or.inr (Or.inl hshort), fun _ => rfl⟩
    · rw [if_neg hshort]
      cases hd : utf8Dec ((input.drop 4).take (leVal (input.take 4))) with
      | none =>
        simp only []
        constructor
        · intro h
          exact ReadResult.noConfusion h
        · intro h
          rcases h with h | h | ⟨cs, hcs, _⟩
          · exact absurd h h4
          · exact absurd h hshort
          · exact Option.noConfusion hcs
      | some cs =>
        simp only []
        cases hp : parseTop cs with
        | none =>
          simp only []
          constructor
          · intro h
            exact ReadResult.noConfusion h
          · intro h
            rcases h with h | h | ⟨cs2, hcs2, hp2⟩
            · exact absurd h h4
            · exact absurd h hshort
            · injection hcs2 with h3
              subst h3
              rw [hp] at hp2
              exact Option.noConfusion hp2
        | some v =>
          simp only []
          constructor
          · intro h
            by_cases hv : v = JVal.null
            · exact Or.inr (Or.inr ⟨cs, rfl, by rw [hp, hv]⟩)
            · exfalso
              have h2 : ReadResult.msg (pyOf v) = ReadResult.msg none := h
              injection h2 with h3
              rw [pyOf, if_neg hv] at h3
              exact Option.noConfusion h3
          · intro h
            rcases h with h | h | ⟨cs2, hcs2, hp2⟩
            · exact absurd h h4
            · exact absurd h hshort
            · injection hcs2 with h3
              subst h3
              rw [hp] at hp2
              injection hp2 with h3
              subst h3
              rfl

/-! ## Lemmas: handlers -/

theorem status_cb (st : HState) (ext : Ext) (m : Resp) :
    jget (handle_status st ext m).2.2 "_callbackId" = jget m "_callbackId" := rfl

theorem save_har_cb (st : HState) (ext : Ext) (m : Resp) :
    jget (handle_save_har st ext m).2.2 "_callbackId" = jget m "_callbackId" := by
  unfold handle_save_har
  simp only []
  repeat' split
  all_goals rfl

theorem generate_cb (st : HState) (ext : Ext) (m : Resp) :
    jget (handle_generate st ext m).2.2 "_callbackId" = jget m "_callbackId" := by
  unfold handle_generate
  simp only []
  repeat' split
  all_goals rfl

theorem chat_async_cb (st : HState) (ext : Ext) (u : JVal) (s : List Char) (m : Resp) :
    jget (chat_async_streaming st ext u s m).2.2 "_callbackId" = jget m "_callbackId" := by
  unfold chat_async_streaming
  simp only []
  repeat' split
  all_goals rfl

theorem chat_cb (st : HState) (ext : Ext) (m : Resp) :
    jget (handle_chat st ext m).2.2 "_callbackId" = jget m "_callbackId" := by
  unfold handle_chat
  simp only []
  repeat' split
  all_goals first
  | rfl
  | exact chat_async_cb st ext _ _ m

theorem save_har_state (st : HState) (ext : Ext) (m : Resp) :
    (handle_save_har st ext m).1 = st ∨
    ∃ s, (handle_save_har st ext m).1 = ⟨some s⟩ ∧
      jget (handle_save_har st ext m).2.2 "type" = jstr "complete" := by
  unfold handle_save_har
  simp only []
  split
  · exact Or.inl rfl
  · split
    · split
      · exact Or.inl rfl
      · exact Or.inr ⟨_, rfl, rfl⟩
    · exact Or.inl rfl

theorem generate_state (st : HState) (ext : Ext) (m : Resp) :
    (handle_generate st ext m).1 = st := by
  unfold handle_generate
  simp only []
  repeat' split
  all_goals rfl

theorem chat_async_state (st : HState) (ext : Ext) (u : JVal) (s : List Char) (m : Resp) :
    (chat_async_streaming st ext u s m).1 = st ∨
    ((chat_async_streaming st ext u s m).1 = ⟨some s⟩ ∧
     jget (chat_async_streaming st ext u s m).2.2 "type" = jstr "chat_response") := by
  unfold chat_async_streaming
  simp only []
  split
  · exact Or.inl rfl
  · split
    · exact Or.inl rfl
    · split
      · exact Or.inl rfl
      · exact Or.inr ⟨rfl, rfl⟩

theorem chat_state (st : HState) (ext : Ext) (m : Resp) :
    (handle_chat st ext m).1 = st ∨
    ∃ s, (handle_chat st ext m).1 = ⟨some s⟩ ∧
      jget (handle_chat st ext m).2.2 "type" = jstr "chat_response" := by
  unfold handle_chat
  simp only []
  repeat' split
  all_goals try exact Or.inl rfl
  all_goals
    rcases chat_async_state st ext _ _ m with h | ⟨h1, h2⟩
    · exact Or.inl h
    · exact Or.inr ⟨_, h1, h2⟩

theorem handle_message_state (st : HState) (ext : Ext) (v : JVal) :
    (handle_message st ext v).1 = st ∨
    ∃ s r, (handle_message st ext v).1 = ⟨some s⟩ ∧
      (handle_message st ext v).2.2 = .ok r ∧
      (jget r "type" = jstr "complete" ∨ jget r "type" = jstr "chat_response") := by
  cases v with
  | obj m =>
    unfold handle_message
    simp only []
    cases htype : jget m "type" with
    | arr l => exact Or.inl rfl
    | obj l => exact Or.inl rfl
    | null => exact Or.inl rfl
    | bool b => exact Or.inl rfl
    | int n => exact Or.inl rfl
    | str t =>
      simp only []
      split
      · exact Or.inl rfl
      · split
        · rcases save_har_state st ext m with h | ⟨s, h1, h2⟩
          · exact Or.inl h
          · exact Or.inr ⟨s, _, h1, rfl, Or.inl h2⟩
        · split
          · exact Or.inl (generate_state st ext m)
          · split
            · rcases chat_state st ext m with h | ⟨s, h1, h2⟩
              · exact Or.inl h
              · exact Or.inr ⟨s, _, h1, rfl, Or.inr h2⟩
            · exact Or.inl rfl
  | null => exact Or.inl rfl
  | bool b => exact Or.inl rfl
  | int n => exact Or.inl rfl
  | str s => exact Or.inl rfl
  | arr l => exact Or.inl rfl

theorem handle_generate_congr (st : HState) (ext : Ext) (m m2 : Resp)
    (h1 : (if truthy (jget m "run_id") then jget m "run_id"
           else match st.current_run_id with | some s => .str s | none => .null) =
          (if truthy (jget m2 "run_id") then jget m2 "run_id"
           else match st.current_run_id with | some s => .str s | none => .null))
    (h2 : jget m "model" = jget m2 "model")
    (h3 : jget m "_callbackId" = jget m2 "_callbackId") :
    handle_generate st ext m = handle_generate st ext m2 := by
  unfold handle_generate
  rw [h1, h2, h3]

theorem chat_async_congr (st : HState) (ext : Ext) (m m2 : Resp)
    (h2 : jget m "model" = jget m2 "model")
    (h3 : jget m "_callbackId" = jget m2 "_callbackId") :
    ∀ u s, chat_async_streaming st ext u s m = chat_async_streaming st ext u s m2 := by
  intro u s
  unfold chat_async_streaming
  rw [h2, h3]

theorem handle_chat_congr (st : HState) (ext : Ext) (m m2 : Resp)
    (h0 : jget m "message" = jget m2 "message")
    (h1 : (if truthy (jget m "run_id") then jget m "run_id"
           else match st.current_run_id with | some s => .str s | none => .null) =
          (if truthy (jget m2 "run_id") then jget m2 "run_id"
           else match st.current_run_id with | some s => .str s | none => .null))
    (h2 : jget m "model" = jget m2 "model")
    (h3 : jget m "_callbackId" = jget m2 "_callbackId") :
    handle_chat st ext m = handle_chat st ext m2 := by
  unfold handle_chat
  simp only [chat_async_congr st ext m m2 h2 h3]
  rw [h0, h1, h3]

/-! ## Claim theorems -/

/-- Claim C1: for a request whose handler emits N intermediate
`agent_event`/`progress` frames, all N frames appear on the output stream
strictly before the single terminal response frame for that request, in
production order, followed by the output of the rest of the stream. -/
theorem events_before_terminal (fuel : Nat) (st st2 : HState) (ext : Ext)
    (input rest : List Nat) (v : JVal) (frames : List Resp) (r : Resp)
    (hread : read_message input = (.msg (some v), rest))
    (hhandle : handle_message st ext v = (st2, frames, .ok r)) :
    (runHostF (fuel + 1) st ext input).1 =
      frames ++ r :: (runHostF fuel st2 ext rest).1 := by
  rw [runHostF, hread]
  simp only []
  rw [hhandle]

/-- The chat engine for the C1 witness: one assistant message with a text
and a thinking block, then a result message. -/
def extC1 : Ext :=
  extChat [.assistant [.text "hi".data, .thinking "mm".data],
           .result false .null (.int 5)] none

/-- A complete chat request dict. -/
def chatReq : Resp :=
  [("type".data, jstr "chat"), ("message".data, jstr "run it"),
   ("run_id".data, jstr "r1"), ("_callbackId".data, jstr "cb1")]

/-- Witness for C1: a chat request streams three event frames, then the
`chat_response` terminal. -/
theorem events_before_terminal_witness :
    (runHostF 1 ⟨none⟩ extC1 (send_message (.obj chatReq))).1 =
      [agentEventText "hi".data, agentEventThinking "mm".data,
       agentEventDone false .null (.int 5)] ++
      [("type".data, jstr "chat_response"), ("message".data, jstr "hi"),
       ("content".data, jstr "hi"), ("_callbackId".data, jstr "cb1")] ::
      (runHostF 0 ⟨some "r1".data⟩ extC1 []).1 :=
  events_before_terminal 0 ⟨none⟩ ⟨some "r1".data⟩ extC1 (send_message (.obj chatReq)) []
    (.obj chatReq) _ _ (by decide) (by decide)

/-- Claim C2 (corrected): a frame whose payload fails UTF-8 decoding, fails
JSON parsing, or parses to a non-object other than the literal `null`
produces one loop-boundary `error` frame (which carries no `_callbackId`),
the handler state is unchanged, and the loop continues with the following
bytes.  A payload parsing to `null` instead terminates the loop (see the
counterexample). -/
theorem malformed_frame_continues (fuel : Nat) (st : HState) (ext : Ext)
    (p extra : List Nat) (h32 : p.length < 2 ^ 32) (hbad : nonObjPayload p = true) :
    ∃ e, (e = "UnicodeDecodeError".data ∨ e = "JSONDecodeError".data ∨
          e = "AttributeError: get".data) ∧
      runHostF (fuel + 1) st ext (leBytes p.length ++ (p ++ extra)) =
        (errFrameOf e :: (runHostF fuel st ext extra).1,
         (runHostF fuel st ext extra).2) := by
  rw [runHostF, read_message_frame p extra h32]
  unfold nonObjPayload at hbad
  cases hd : utf8Dec p with
  | none =>
    exact ⟨_, Or.inl rfl, rfl⟩
  | some cs =>
    rw [hd] at hbad
    simp only [] at hbad
    simp only []
    cases hp : parseTop cs with
    | none =>
      rw [hp] at hbad
      exact ⟨_, Or.inr (Or.inl rfl), rfl⟩
    | some v =>
      rw [hp] at hbad
      simp only []
      cases v with
      | null => simp at hbad
      | obj l => simp at hbad
      | bool b => exact ⟨_, Or.inr (Or.inr rfl), rfl⟩
      | int n => exact ⟨_, Or.inr (Or.inr rfl), rfl⟩
      | str s2 => exact ⟨_, Or.inr (Or.inr rfl), rfl⟩
      | arr l => exact ⟨_, Or.inr (Or.inr rfl), rfl⟩

/-- Witness for C2: a frame carrying `[1, 2]` yields the boundary error
frame and the loop goes on to the rest of the stream. -/
theorem malformed_frame_continues_witness :
    ∃ e, (e = "UnicodeDecodeError".data ∨ e = "JSONDecodeError".data ∨
          e = "AttributeError: get".data) ∧
      runHostF 2 ⟨none⟩ ext0
          (leBytes (utf8Enc "[1, 2]".data).length ++
           (utf8Enc "[1, 2]".data ++ frameOf "\x7b\"type\": \"status\"\x7d")) =
        (errFrameOf e ::
           (runHostF 1 ⟨none⟩ ext0 (frameOf "\x7b\"type\": \"status\"\x7d")).1,
         (runHostF 1 ⟨none⟩ ext0 (frameOf "\x7b\"type\": \"status\"\x7d")).2) :=
  malformed_frame_continues 1 ⟨none⟩ ext0 (utf8Enc "[1, 2]".data)
    (frameOf "\x7b\"type\": \"status\"\x7d") (by decide) (by decide)

/-- Counterexample to C2 as stated: a syntactically complete frame whose
payload is the JSON literal `null` does not produce an error response and
does not continue the loop — the host breaks out immediately, never
reaching the following complete `status` frame. -/
theorem null_payload_breaks_loop :
    run_host ⟨none⟩ ext0
        (frameOf "null" ++ frameOf "\x7b\"type\": \"status\", \"_callbackId\": \"cb\"\x7d") =
      ([], ⟨none⟩) := by decide

/-- Claim C3 (corrected): the dispatch loop writes nothing and stops
exactly when `read_message` yields the end-of-stream value, which happens
when fewer than 4 header bytes are available, when the declared payload
length exceeds the available bytes, or — beyond the spec's two cases —
when a complete frame's payload parses to the JSON literal `null`. -/
theorem loop_break_characterization (fuel : Nat) (st : HState) (ext : Ext)
    (input : List Nat) :
    (runHostF (fuel + 1) st ext input).1 = [] ↔
      input.length < 4 ∨
      ((input.drop 4).take (leVal (input.take 4))).length < leVal (input.take 4) ∨
      ∃ cs, utf8Dec ((input.drop 4).take (leVal (input.take 4))) = some cs ∧
        parseTop cs = some .null := by
  rw [runHostF_out_empty_iff, read_none_iff]

/-- Counterexample to C3 as stated: a complete well-formed frame (4 header
bytes declaring length 4, all 4 payload bytes present) on which the host
nevertheless terminates with no output. -/
theorem complete_null_frame_terminates :
    (frameOf "null").length = 8 ∧ leVal ((frameOf "null").take 4) = 4 ∧
    run_host ⟨none⟩ ext0 (frameOf "null") = ([], ⟨none⟩) := by decide

/-- Claim C4 (corrected): a handler invocation that raises or returns an
`error` response leaves `current_run_id` unchanged, and any change sets it
to `some s` with a successful terminal response — but only `saveHar` and
`chat` completions do so: `handle_generate` never assigns the cell, even on
a completed generation. -/
theorem run_id_cell_mutation (st : HState) (ext : Ext) (v : JVal) :
    (∀ e, (handle_message st ext v).2.2 = .raised e →
      (handle_message st ext v).1 = st) ∧
    (∀ r, (handle_message st ext v).2.2 = .ok r → jget r "type" = jstr "error" →
      (handle_message st ext v).1 = st) ∧
    (∀ m, (handle_generate st ext m).1 = st) ∧
    ((handle_message st ext v).1 ≠ st →
      ∃ s r, (handle_message st ext v).1 = ⟨some s⟩ ∧
        (handle_message st ext v).2.2 = .ok r ∧
        (jget r "type" = jstr "complete" ∨ jget r "type" = jstr "chat_response")) := by
  refine ⟨?_, ?_, fun m => generate_state st ext m, ?_⟩
  · intro e he
    rcases handle_message_state st ext v with h | ⟨s, r, h1, h2, h3⟩
    · exact h
    · rw [he] at h2
      exact Outcome.noConfusion h2
  · intro r hr ht
    rcases handle_message_state st ext v with h | ⟨s, r2, h1, h2, h3⟩
    · exact h
    · rw [hr] at h2
      injection h2 with h4
      subst h4
      rcases h3 with h3 | h3
      · rw [ht] at h3
        exact absurd h3 (by decide)
      · rw [ht] at h3
        exact absurd h3 (by decide)
  · intro hne
    rcases handle_message_state st ext v with h | hgood
    · exact absurd h hne
    · exact hgood

/-- Counterexample to C4 as stated: a fully successful `generate` (HAR
present, generation succeeds, run registered, `complete` returned) leaves
`current_run_id` at `none`. -/
theorem generate_success_leaves_cell :
    handle_generate ⟨none⟩ ext0
        [("type".data, jstr "generate"), ("run_id".data, jstr "r7"),
         ("_callbackId".data, jstr "cb7")] =
      (⟨none⟩,
       [progressResp "Analyzing HAR file...".data 10,
        progressResp "Generating API client with Claude...".data 30,
        progressResp "Generation complete".data 100],
       [("type".data, jstr "complete"),
        ("script_path".data, .str "/scripts/r7".data),
        ("run_id".data, jstr "r7"),
        ("_callbackId".data, jstr "cb7")]) := by decide

/-- Claim C5 (corrected): every request dict whose `type` is hashable gets
a terminal response carrying the request's `_callbackId` value verbatim,
whatever the handler did; a request whose `type` is a list or dict raises
at the loop boundary instead, where the error frame has no `_callbackId`
(see the counterexample). -/
theorem callback_echo (st : HState) (ext : Ext) (m : Resp)
    (h : hashable (jget m "type") = true) :
    ∃ r, (handle_message st ext (.obj m)).2.2 = .ok r ∧
      jget r "_callbackId" = jget m "_callbackId" := by
  unfold handle_message
  simp only []
  cases htype : jget m "type" with
  | arr l => rw [htype] at h; exact absurd h (by simp [hashable])
  | obj l => rw [htype] at h; exact absurd h (by simp [hashable])
  | null => exact ⟨_, rfl, rfl⟩
  | bool b => exact ⟨_, rfl, rfl⟩
  | int n => exact ⟨_, rfl, rfl⟩
  | str t =>
    simp only []
    split
    · exact ⟨_, rfl, status_cb st ext m⟩
    · split
      · exact ⟨_, rfl, save_har_cb st ext m⟩
      · split
        · exact ⟨_, rfl, generate_cb st ext m⟩
        · split
          · exact ⟨_, rfl, chat_cb st ext m⟩
          · exact ⟨_, rfl, rfl⟩

/-- Witness for C5: a `status` request with `_callbackId: "cb5"`. -/
theorem callback_echo_witness :
    ∃ r, (handle_message ⟨none⟩ ext0
        (.obj [("type".data, jstr "status"), ("_callbackId".data, jstr "cb5")])).2.2 =
          .ok r ∧
      jget r "_callbackId" =
        jget [("type".data, jstr "status"), ("_callbackId".data, jstr "cb5")]
          "_callbackId" :=
  callback_echo ⟨none⟩ ext0
    [("type".data, jstr "status"), ("_callbackId".data, jstr "cb5")] (by decide)

/-- Counterexample to C5 as stated: a request carrying `_callbackId` whose
`type` is a list is caught at the loop boundary and the emitted error frame
has no `_callbackId` field at all. -/
theorem boundary_error_no_callback :
    run_host ⟨none⟩ ext0 (frameOf "\x7b\"type\": [1], \"_callbackId\": \"cb9\"\x7d") =
      ([errFrameOf "unhashable type: list".data], ⟨none⟩) ∧
    List.lookup "_callbackId".data (errFrameOf "unhashable type: list".data) = none := by
  decide

/-- Witness for C6: a one-member object round-trips through the codec. -/
theorem read_send_message_witness :
    read_message (send_message (.obj [("a".data, .int 5)]) ++ []) =
      (.msg (pyOf (.obj [("a".data, .int 5)])), []) :=
  read_send_message (.obj [("a".data, .int 5)]) [] (by decide) (by decide)

/-- Claim C9: on truncated input `read_message` returns the end-of-stream
value rather than raising: fewer than 4 header bytes, or fewer payload
bytes than the declared length, both yield `msg none`. -/
theorem truncated_read_returns_none (input : List Nat) :
    (input.length < 4 → read_message input = (.msg none, [])) ∧
    ((input.drop 4).length < leVal (input.take 4) →
      read_message input = (.msg none, [])) := by
  constructor
  · intro h
    unfold read_message
    rw [if_pos h]
  · intro h
    unfold read_message
    by_cases h4 : input.length < 4
    · rw [if_pos h4]
    · rw [if_neg h4]
      simp only []
      rw [if_pos (by rw [List.length_take]; omega)]

/-- Claim C10: falsy explicit fields behave as absent ones: a falsy
`run_id` or `har` in `saveHar` yields the missing-field error, and a falsy
`run_id` in `generate` or `chat` makes the handler behave exactly as if the
field were omitted (falling back to the session cell). -/
theorem falsy_fields_as_absent (st : HState) (ext : Ext) (m : Resp) :
    ((truthy (jget m "run_id") = false ∨ truthy (jget m "har") = false) →
      handle_save_har st ext m =
        (st, [], errorResp "Missing run_id or har data".data
          (jget m "_callbackId"))) ∧
    (truthy (jget m "run_id") = false →
      handle_generate st ext m = handle_generate st ext (delKey "run_id".data m)) ∧
    (truthy (jget m "run_id") = false →
      handle_chat st ext m = handle_chat st ext (delKey "run_id".data m)) := by
  refine ⟨?_, ?_, ?_⟩
  · intro h
    unfold handle_save_har
    simp only []
    rcases h with h | h
    · rw [if_pos (by rw [h]; rfl)]
    · rw [if_pos (by rw [h]; simp)]
  · intro h
    refine handle_generate_congr st ext m _ ?_ ?_ ?_
    · rw [h, jget_delKey_self]
      rfl
    · exact (jget_delKey_ne "run_id".data m "model" (by decide)).symm
    · exact (jget_delKey_ne "run_id".data m "_callbackId" (by decide)).symm
  · intro h
    refine handle_chat_congr st ext m _ ?_ ?_ ?_ ?_
    · exact (jget_delKey_ne "run_id".data m "message" (by decide)).symm
    · rw [h, jget_delKey_self]
      rfl
    · exact (jget_delKey_ne "run_id".data m "model" (by decide)).symm
    · exact (jget_delKey_ne "run_id".data m "_callbackId" (by decide)).symm

/-- Claim C7: a successful `saveHar` with run id `s` sets the session cell
to `s`; a later `generate` whose own `run_id` is falsy behaves exactly as
if `run_id: s` had been supplied; and with no session either, the handler
returns the no-run-id `error` response locally (an `ok` outcome, nothing
raised to the dispatcher). -/
theorem session_fallback (st : HState) (ext : Ext) (m m2 : Resp) (s : List Char)
    (hrun : jget m "run_id" = .str s) (hs : s ≠ [])
    (hhar : truthy (jget m "har") = true)
    (hwrite : ext.writeHar s (jget m "har") = none)
    (hno : truthy (jget m2 "run_id") = false) :
    (handle_save_har st ext m).1 = ⟨some s⟩ ∧
    handle_generate ⟨some s⟩ ext m2 =
      handle_generate ⟨some s⟩ ext (("run_id".data, .str s) :: m2) ∧
    handle_generate ⟨none⟩ ext m2 =
      (⟨none⟩, [],
       errorResp "No run_id provided and no current session".data
         (jget m2 "_callbackId")) := by
  have ht : truthy (JVal.str s) = true := by simp [truthy, hs]
  refine ⟨?_, ?_, ?_⟩
  · unfold handle_save_har
    simp only []
    rw [hrun, ht, hhar]
    simp only [Bool.not_true, Bool.or_self, Bool.false_eq_true, reduceIte]
    rw [hwrite]
  · refine handle_generate_congr ⟨some s⟩ ext m2 _ ?_ ?_ ?_
    · rw [hno, jget_cons_eq "run_id" (.str s) m2]
      simp only [Bool.false_eq_true, reduceIte, ht]
    · exact (jget_cons_ne "run_id".data (.str s) m2 "model" (by decide)).symm
    · exact (jget_cons_ne "run_id".data (.str s) m2 "_callbackId" (by decide)).symm
  · unfold handle_generate
    simp only []
    rw [hno]
    simp only [Bool.false_eq_true, reduceIte, truthy, Bool.not_false]

/-- Witness for C7 at a concrete environment and concrete messages. -/
theorem session_fallback_witness :
    (handle_save_har ⟨none⟩ ext0
        [("type".data, jstr "saveHar"), ("run_id".data, jstr "r1"),
         ("har".data, .obj [("log".data, .int 1)])]).1 = ⟨some "r1".data⟩ ∧
    handle_generate ⟨some "r1".data⟩ ext0 [("_callbackId".data, jstr "cbw")] =
      handle_generate ⟨some "r1".data⟩ ext0
        (("run_id".data, .str "r1".data) :: [("_callbackId".data, jstr "cbw")]) ∧
    handle_generate ⟨none⟩ ext0 [("_callbackId".data, jstr "cbw")] =
      (⟨none⟩, [],
       errorResp "No run_id provided and no current session".data
         (jget [("_callbackId".data, jstr "cbw")] "_callbackId")) :=
  session_fallback ⟨none⟩ ext0
    [("type".data, jstr "saveHar"), ("run_id".data, jstr "r1"),
     ("har".data, .obj [("log".data, .int 1)])]
    [("_callbackId".data, jstr "cbw")] "r1".data
    (by decide) (by decide) (by decide) (by decide) (by decide)

/-- Claim C8 (corrected): `thinking` content over 500 characters is cut to
500 plus `"..."`; a string `tool_result` output gets the marker whenever
its length is at least 500 (also at exactly 500); a `Bash` command is cut
to 200 characters with no marker at all; a generic string field of an
unlisted tool is cut to 100 plus the marker only when longer than 100; an
`Edit` tool `old_string` over 50 characters is cut to 50 plus the
marker. -/
theorem truncation_policy (acc : ChatAcc) (t c s : List Char) (isErr : Bool)
    (k : List Char) :
    jget (agentEventThinking t) "content" =
      .str (if 500 < t.length then t.take 500 ++ mark else t) ∧
    (procBlock acc (.toolResult (some c) isErr)).1.frames =
      acc.frames ++ [agentEventToolResult (acc.lastTool.getD "Tool".data) isErr
        (if 500 ≤ c.length then c.take 500 ++ mark else c)] ∧
    summarize_tool_input "Bash".data [("command".data, .str s)] =
      some [("command".data, .str (s.take 200))] ∧
    summarize_tool_input "Fetch".data [(k, .str s)] =
      some [(k, if 100 < s.length then .str (s.take 100 ++ mark) else .str s)] ∧
    summarize_tool_input "Edit".data [("old_string".data, .str s)] =
      some [("file_path".data, jstr ""),
            ("old_string".data, .str (if 50 < s.length then s.take 50 ++ mark else s))] := by
  refine ⟨rfl, ?_, rfl, rfl, rfl⟩
  unfold procBlock
  simp only []
  by_cases hlen : 500 ≤ c.length
  · rw [show ((some c).map (fun x => x.take 500)).getD [] = c.take 500 from rfl]
    rw [if_pos (by rw [List.length_take]; omega), if_pos hlen]
  · rw [show ((some c).map (fun x => x.take 500)).getD [] = c.take 500 from rfl]
    rw [if_neg (by rw [List.length_take]; omega), if_neg hlen]
    rw [List.take_of_length_le (by omega)]

/-- Counterexample to C8 as stated: a 201-character `Bash` command is cut
to 200 characters without any trailing marker, and a 500-character tool
result — exactly at, not over, the threshold — still gets the marker. -/
theorem bash_and_tool_result_truncation :
    summarize_tool_input "Bash".data
        [("command".data, .str (List.replicate 201 'a'))] =
      some [("command".data, .str (List.replicate 200 'a'))] ∧
    (procBlock chatAccInit (.toolResult (some (List.replicate 500 'b')) false)).1.frames =
      [agentEventToolResult "Tool".data false (List.replicate 500 'b' ++ mark)] := by
  decide

end NativeHost
